import Mathlib

/-!
# GoFor-Collector: extent-stitching reader and boot-sector parsers

A shallow embedding of

* `dataRunsReader.Read` and `newRawFileReader`
  (`internal/collect/windows/readers.go`),
* `vbr.Parse` (`pkg/windows/vbr/vbr.go`),
* `parseVolumeBootRecord` (`pkg/gofor/ntfs_vbr.go`).

Conventions.

* Go `int64` values are Lean `Int`s; every `int64` operation of the source is
  followed by `wrap64`, the two's complement wrap-around. Go `uint` is 64 bits
  wide, and `uint` and `uint8` values are Lean `Nat`s.
* A byte slice is a `List UInt8` (length = capacity).
* A Go run-time panic is an explicit outcome, never a missing result.
* The volume is an array of bytes with a read position: `Seek` sets the
  position, `Read` returns the bytes at the position, as many as asked for
  unless the volume ends before, and advances the position.
* Logging calls have no effect on the state and are left out, and with them
  the `fileName` field, which only logging reads.
* `ReadResult.want` is a ghost: it records the local `bufferSize` of a call of
  `Read`, which the caller does not get to see.
-/

namespace GoFor

/-! ## Machine integers -/

/-- Two's complement wrap-around of an integer to the `int64` range. -/
def wrap64 (x : Int) : Int :=
  (x + 9223372036854775808) % 18446744073709551616 - 9223372036854775808

/-- The range of the Go type `int64`. -/
def I64 (x : Int) : Prop :=
  -9223372036854775808 ≤ x ∧ x < 9223372036854775808

instance (x : Int) : Decidable (I64 x) := by
  unfold I64; infer_instance

/-! ## The volume handle -/

/-- The errors `dataRunsReader.Read` returns: `io.ErrUnexpectedEOF` and `io.EOF`. -/
inductive GoError where
  | ErrUnexpectedEOF
  | EOF
  deriving DecidableEq, Repr

/-- The run-time panics `dataRunsReader.Read` can raise: `make([]byte, n)` with
`n < 0` (readers.go line 80) and `DataRuns[i]` with `i` out of range (line 96). -/
inductive GoPanic where
  | makesliceLenOutOfRange
  | indexOutOfRange
  deriving DecidableEq, Repr

/-- An `mft.DataRun`: one extent of a file, as an absolute byte offset into the
volume and a byte count. The type is declared in the package `mft`, which is not
among the sources; both fields are `int64`, as their uses in `Read` require
(`totalFileSize += dataRun.Length`, `Seek(... .AbsoluteOffset, 0)`). -/
structure DataRun where
  AbsoluteOffset : Int
  Length : Int
  deriving DecidableEq, Repr

/-- The `volume.Handler` the reader works through, as far as `Read` uses it.
The interface declaration is not part of the sources at hand; its shape is
the one of `dummyHandler` in `internal/packrat/volume_test.go`:
`Handle()` returns the `*os.File` of the volume, `LastOffset()` and
`UpdateLastOffset` get and set a plain `int64` field.

* `data` are the bytes of the volume, `pos` is the file position of the
  `*os.File` (the device read position);
* `lastOffset` is the tracked cursor. -/
structure VolumeHandler where
  data : List UInt8
  pos : Nat
  lastOffset : Int
  deriving DecidableEq, Repr

/-- The method `Seek(offset, 0)` of `*os.File`: a negative offset is an error, it
returns 0 and leaves the position alone; otherwise the position becomes `offset`,
which is also the value returned. The tracked cursor is a field of the handler,
not of the file, and is not touched. -/
def VolumeHandler.Seek (h : VolumeHandler) (offset : Int) : VolumeHandler × Int :=
  if offset < 0 then (h, 0) else ({ h with pos := offset.toNat }, offset)

/-- The method `Read(buffer)` of `*os.File` for a buffer of `k` bytes: the bytes of
the volume from the position on, at most `k` of them, and the position advanced
by their number. (The error it returns at the end of the volume is dropped by
the caller.) -/
def VolumeHandler.Read (h : VolumeHandler) (k : Nat) : VolumeHandler × List UInt8 :=
  let bytes := (h.data.drop h.pos).take k
  ({ h with pos := h.pos + bytes.length }, bytes)

/-- The built-in `copy(dst, src)`: the first `min (len dst) (len src)` bytes of
`dst` are overwritten by those of `src`. -/
def copyBytes (dst src : List UInt8) : List UInt8 :=
  src.take dst.length ++ dst.drop src.length

/-! ## The reader -/

/-- The struct `dataRunsReader` (readers.go lines 15-24). `dataRunTracker` is a Go
`int` that is only ever set to 0 and incremented, hence a `Nat` here. -/
structure dataRunsReader where
  Handler : VolumeHandler
  DataRuns : List DataRun
  dataRunTracker : Nat
  dataRunBytesLeftToReadTracker : Int
  totalFileSize : Int
  totalByesRead : Int
  initialized : Bool
  deriving DecidableEq, Repr

/-- The function `newRawFileReader` (readers.go lines 121-131); `totalByesRead` is
not listed there and gets the zero value. -/
def newRawFileReader (handler : VolumeHandler) (dataRuns : List DataRun) (size : Int) :
    dataRunsReader :=
  { Handler := handler
    DataRuns := dataRuns
    dataRunTracker := 0
    dataRunBytesLeftToReadTracker := 0
    totalFileSize := size
    totalByesRead := 0
    initialized := false }

/-- The loop of lines 39-41: `totalFileSize += dataRun.Length` over all runs. -/
def addLengths (acc : Int) (runs : List DataRun) : Int :=
  runs.foldl (fun a d => wrap64 (a + d.Length)) acc

/-- Lines 37-64 of `Read`, for a reader whose first run is `first`: a reader that is
not initialized yet gets its declared size (when it is 0), is put on the first
run, seeks there, and the tracked cursor is moved back by `bufferSize`. -/
def initReader (r : dataRunsReader) (bufferSize : Int) (first : DataRun) : dataRunsReader :=
  if r.initialized then r
  else
    let size := if r.totalFileSize = 0 then addLengths r.totalFileSize r.DataRuns
                else r.totalFileSize
    let h := (r.Handler.Seek first.AbsoluteOffset).1
    let newOffset := wrap64 (h.lastOffset - bufferSize)
    { r with
      totalFileSize := size
      dataRunTracker := 0
      dataRunBytesLeftToReadTracker := first.Length
      Handler := { h with lastOffset := newOffset }
      initialized := true }

/-- How a call of `Read` ends: it returns `(numberOfBytesRead, err)`, or it panics. -/
inductive Outcome where
  | ret (numberOfBytesRead : Int) (err : Option GoError)
  | panic (p : GoPanic)
  deriving DecidableEq, Repr

/-- All that a call of `Read` leaves behind: the reader (with the handler it
shares), the destination slice, how the call ended, and `want`, the value of the
local `bufferSize` when line 80 allocates the buffer, which is the number of bytes
the call asks of the device and copies out (0 when line 80 is not reached). -/
structure ReadResult where
  reader : dataRunsReader
  dst : List UInt8
  want : Int
  outcome : Outcome
  deriving DecidableEq, Repr

/-- Lines 66-74 of `Read`: the request is cut down to what is left of the current
run. Returns the new `bufferSize` and the new `dataRunBytesLeftToReadTracker`. -/
def clampToRun (left bufferSize : Int) : Int × Int :=
  if wrap64 (left - bufferSize) = 0 then (bufferSize, wrap64 (left - bufferSize))
  else if wrap64 (left - bufferSize) < 0 then (left, 0)
  else (bufferSize, wrap64 (left - bufferSize))

/-- Lines 77-79 of `Read`: the request is cut down to what is left of the file. -/
def clampToFile (totalByesRead totalFileSize bufferSize : Int) : Int :=
  if wrap64 (totalByesRead + bufferSize) > totalFileSize then
    wrap64 (totalFileSize - totalByesRead)
  else bufferSize

/-- The content of `buffer` after line 83: `k` zero bytes from `make`, the first
of them overwritten by what the device read returned. -/
def readBuffer (h : VolumeHandler) (k : Nat) : List UInt8 :=
  (h.Read k).2 ++ List.replicate (k - (h.Read k).2.length) 0

/-- Lines 66-113 of `Read`, the part after the sanity check and the
initialization, on the reader `r` as lines 37-64 left it. -/
def readAfterInit (r : dataRunsReader) (byteSliceToPopulate : List UInt8) : ReadResult :=
  -- lines 66-74
  let c := clampToRun r.dataRunBytesLeftToReadTracker byteSliceToPopulate.length
  let r2 := { r with dataRunBytesLeftToReadTracker := c.2 }
  -- lines 77-79
  let bufferSize := clampToFile r2.totalByesRead r2.totalFileSize c.1
  -- line 80
  if bufferSize < 0 then
    { reader := r2, dst := byteSliceToPopulate, want := bufferSize,
      outcome := .panic .makesliceLenOutOfRange }
  else
    -- lines 81-85
    let h1 := { r2.Handler with lastOffset := wrap64 (r2.Handler.lastOffset + bufferSize) }
    let h2 := (h1.Read bufferSize.toNat).1
    let numberOfBytesRead : Int := (h1.Read bufferSize.toNat).2.length
    let dst := copyBytes byteSliceToPopulate (readBuffer h1 bufferSize.toNat)
    let r3 := { r2 with
      Handler := h2
      totalByesRead := wrap64 (r2.totalByesRead + bufferSize) }
    -- lines 86-88
    if r3.totalFileSize = r3.totalByesRead then
      { reader := r3, dst := dst, want := bufferSize, outcome := .ret 0 (some .EOF) }
    -- lines 91-110
    else if r3.dataRunBytesLeftToReadTracker = 0 then
      let r4 := { r3 with dataRunTracker := r3.dataRunTracker + 1 }
      match r4.DataRuns[r4.dataRunTracker]? with
      | none =>
        { reader := r4, dst := dst, want := bufferSize, outcome := .panic .indexOutOfRange }
      | some run =>
        let s := r4.Handler.Seek run.AbsoluteOffset
        let newOffset := wrap64 (s.2 - bufferSize)
        { reader := { r4 with
            dataRunBytesLeftToReadTracker := run.Length
            Handler := { s.1 with lastOffset := newOffset } }
          dst := dst, want := bufferSize, outcome := .ret numberOfBytesRead none }
    -- line 112
    else
      { reader := r3, dst := dst, want := bufferSize, outcome := .ret numberOfBytesRead none }

/-- The method `dataRunsReader.Read` (readers.go lines 27-113). -/
def Read (r : dataRunsReader) (byteSliceToPopulate : List UInt8) : ReadResult :=
  match r.DataRuns with
  | [] =>
    -- lines 31-34
    { reader := r, dst := byteSliceToPopulate, want := 0,
      outcome := .ret 0 (some .ErrUnexpectedEOF) }
  | first :: _ =>
    -- lines 37-64, then the rest
    readAfterInit (initReader r byteSliceToPopulate.length first) byteSliceToPopulate

/-! ## A consumer, and what a file is made of -/

/-- A consumer that pulls with one buffer, over and over, until a pull returns an
error (`io.EOF` is one) or panics; the results of the pulls, in order, or `none`
when `fuel` pulls did not get there. -/
def pullAll : Nat → dataRunsReader → List UInt8 → Option (List ReadResult)
  | 0, _, _ => none
  | fuel + 1, r, buf =>
    match (Read r buf).outcome with
    | .ret _ none => (pullAll fuel (Read r buf).reader (Read r buf).dst).map ((Read r buf) :: ·)
    | _ => some [Read r buf]

/-- The bytes the pulls put into the destination: for each pull the first `want`
bytes of the destination slice as the pull left it. -/
def copiedBytes : List ReadResult → List UInt8
  | [] => []
  | res :: rest => res.dst.take res.want.toNat ++ copiedBytes rest

/-- The sum of the byte counts returned by the pulls that did not signal
end-of-stream. -/
def countedBytes : List ReadResult → Int
  | [] => 0
  | res :: rest =>
    (match res.outcome with
     | .ret _ (some .EOF) => 0
     | .ret n _ => n
     | .panic _ => 0) + countedBytes rest

/-- The sum of the lengths of the runs, as a mathematical integer. -/
def sumLengths : List DataRun → Int
  | [] => 0
  | d :: ds => d.Length + sumLengths ds

/-- The bytes of the volume in the range `[AbsoluteOffset, AbsoluteOffset + Length)`
of a run. -/
def extentBytes (data : List UInt8) (d : DataRun) : List UInt8 :=
  (data.drop d.AbsoluteOffset.toNat).take d.Length.toNat

/-- The concatenation, in list order, of the volume ranges of the runs. -/
def fileBytes (data : List UInt8) : List DataRun → List UInt8
  | [] => []
  | d :: ds => extentBytes data d ++ fileBytes data ds

/-- A run lies inside the volume. -/
def DataRun.inVolume (data : List UInt8) (d : DataRun) : Prop :=
  0 ≤ d.AbsoluteOffset ∧ d.AbsoluteOffset + d.Length ≤ data.length

/-- The reader after pulls with the buffers `bufs`, one call of `Read` each, in
turn. -/
def readerAfter (r : dataRunsReader) (bufs : List (List UInt8)) : dataRunsReader :=
  bufs.foldl (fun st b => (Read st b).reader) r

/-- The value `min(R, bytes left in the run, declared size - bytes delivered)`. -/
def wantOf (r : dataRunsReader) (R : Int) : Int :=
  min R (min r.dataRunBytesLeftToReadTracker (r.totalFileSize - r.totalByesRead))

/-- None of the `int64` operations of lines 67-79 overflows on a pull of `R` bytes,
and the declared size is an `int64`. -/
def NoOverflow (r : dataRunsReader) (R : Int) : Prop :=
  I64 r.totalFileSize ∧ I64 (r.dataRunBytesLeftToReadTracker - R) ∧
  I64 (r.totalByesRead + min R r.dataRunBytesLeftToReadTracker) ∧
  I64 (r.totalFileSize - r.totalByesRead)

instance (r : dataRunsReader) (R : Int) : Decidable (NoOverflow r R) := by
  unfold NoOverflow; infer_instance

/-- The counters of the reader are in the ranges a run of pulls keeps them in:
nothing is negative, no more is delivered than declared, and the sums fit the type
`int64`. -/
def Sane (r : dataRunsReader) : Prop :=
  0 ≤ r.dataRunBytesLeftToReadTracker ∧ 0 ≤ r.totalByesRead ∧
  r.totalByesRead ≤ r.totalFileSize ∧ I64 r.totalFileSize ∧
  I64 (r.totalByesRead + r.dataRunBytesLeftToReadTracker)

instance (r : dataRunsReader) : Decidable (Sane r) := by
  unfold Sane; infer_instance

/-- The handler after lines 81-83 on a pull of `w` bytes: the tracked cursor is
advanced by `w`, the device position by the number of bytes the device gave. -/
def afterDeviceRead (h : VolumeHandler) (w : Int) : VolumeHandler :=
  { data := h.data
    pos := h.pos + ((h.data.drop h.pos).take w.toNat).length
    lastOffset := wrap64 (h.lastOffset + w) }

/-- The reader has delivered all it declared, and its counters are in range. -/
def Exhausted (e : dataRunsReader) : Prop :=
  e.DataRuns ≠ [] ∧ e.initialized = true ∧ e.totalByesRead = e.totalFileSize ∧
  0 ≤ e.totalByesRead ∧ 0 ≤ e.dataRunBytesLeftToReadTracker ∧
  I64 (e.totalFileSize + e.dataRunBytesLeftToReadTracker) ∧ I64 e.Handler.lastOffset

instance (e : dataRunsReader) : Decidable (Exhausted e) := by
  unfold Exhausted; infer_instance

/-- The outcome of the last pull of a run of pulls. -/
def finalOutcome : List ReadResult → Option Outcome
  | [] => none
  | [res] => some res.outcome
  | _ :: rest => finalOutcome rest

/-- The reader is in the middle of a file: it is initialized, `cur` is the run the
extent index points at and `rest` are the runs after it; something is left of
`cur` and the device position is that far from its end; the runs lie inside the
volume; less than the declared size is delivered; and the sums fit `int64`. -/
def Streaming (r : dataRunsReader) (cur : DataRun) (rest : List DataRun) : Prop :=
  r.initialized = true ∧
  r.DataRuns.drop r.dataRunTracker = cur :: rest ∧
  0 < r.dataRunBytesLeftToReadTracker ∧
  r.dataRunBytesLeftToReadTracker ≤ cur.Length ∧
  (r.Handler.pos : Int) + r.dataRunBytesLeftToReadTracker = cur.AbsoluteOffset + cur.Length ∧
  cur.inVolume r.Handler.data ∧
  (∀ d ∈ rest, 0 < d.Length ∧ d.inVolume r.Handler.data) ∧
  0 ≤ r.totalByesRead ∧ r.totalByesRead < r.totalFileSize ∧
  I64 r.totalFileSize ∧
  I64 (r.totalByesRead + r.dataRunBytesLeftToReadTracker + sumLengths rest)

/-- The bytes of the file from the point the reader is at: what is left of the
current run, then the runs `rest`. -/
def remainingBytes (r : dataRunsReader) (rest : List DataRun) : List UInt8 :=
  (r.Handler.data.drop r.Handler.pos).take r.dataRunBytesLeftToReadTracker.toNat
    ++ fileBytes r.Handler.data rest

instance (data : List UInt8) (d : DataRun) : Decidable (d.inVolume data) := by
  unfold DataRun.inVolume; infer_instance

/-- An example volume of ten bytes, the device position at 0 and the tracked cursor
at 512. -/
def demoHandler : VolumeHandler :=
  { data := [10, 11, 12, 13, 14, 15, 16, 17, 18, 19], pos := 0, lastOffset := 512 }

/-- An example file of two extents: 3 bytes at offset 6, then 2 bytes at offset 1. -/
def demoRuns : List DataRun := [⟨6, 3⟩, ⟨1, 2⟩]

/-! ## The boot-sector parsers -/

/-- Two's complement wrap-around of an integer to the `int8` range. -/
def wrap8 (x : Int) : Int :=
  (x + 128) % 256 - 128

/-- The conversion `int8(b)` of a byte. -/
def toInt8 (b : Nat) : Int :=
  wrap8 b

/-- The value of a byte string read as a little-endian unsigned integer. -/
def littleEndian : List UInt8 → Nat
  | [] => 0
  | b :: bs => b.toNat + 256 * littleEndian bs

/-- The literal `"NTFS"`. -/
def magicNumber : List UInt8 := [0x4E, 0x54, 0x46, 0x53]

/-- The expression `uint(math.Pow(2, float64(e)))` of vbr.go line 67 for an `int8`
value `e`, with `uint` 64 bits wide. `math.Pow(2, e)` is the exact power of two
(every `2^e` with `-128 ≤ e ≤ 127` is a `float64`). The conversion to `uint`
truncates toward zero, which makes 0 of a negative power; when `2^e` does not fit
`uint` the Go specification leaves the result to the implementation, and
`outOfRange` stands for what the implementation gives. -/
def pow2ToUint (outOfRange : Int → Nat) (e : Int) : Nat :=
  if e < 0 then 0
  else if e < 64 then 2 ^ e.toNat
  else outOfRange e % 18446744073709551616

/-- The expression `int64(math.Pow(2, float64(e)))` of ntfs_vbr.go line 58, as
`pow2ToUint` but for the type `int64`, which holds `2^e` up to `e = 62`. -/
def pow2ToInt64 (outOfRange : Int → Int) (e : Int) : Int :=
  if e < 0 then 0
  else if e < 63 then 2 ^ e.toNat
  else wrap64 (outOfRange e)

namespace vbr

/-- The struct `VolumeBootRecord` of vbr.go: `uint` and `uint8` fields are natural
numbers, `MftOffset` is an `int64`. -/
structure VolumeBootRecord where
  VolumeLetter : String
  BytesPerSector : Nat
  SectorsPerCluster : Nat
  BytesPerCluster : Nat
  MftOffset : Int
  MftRecordSize : Nat
  ClustersPerIndexRecord : Nat
  deriving DecidableEq, Repr

/-- The zero value `VolumeBootRecord{}`. -/
def VolumeBootRecord.zero : VolumeBootRecord :=
  { VolumeLetter := "", BytesPerSector := 0, SectorsPerCluster := 0, BytesPerCluster := 0,
    MftOffset := 0, MftRecordSize := 0, ClustersPerIndexRecord := 0 }

/-- The errors of `Parse`, one for each `return` that has one, in source order. -/
inductive ParseError where
  | receivedNilBytes
  | receivedLessThan512Bytes
  | noMagicNumber
  | clustersPerMftRecordLessThan128 (clustersPerMFTRecord : Nat)
  | failedToGetMftOffsetClusters
  deriving DecidableEq, Repr

/-- Modelled from the spec: `byteshelper.GetValue(input, location)` for a location
made by `byteshelper.NewDataLocation(offset, length)`; the package `byteshelper` is
not among the sources. The layout table of the spec gives each field as an offset
and a length into the input, and the value is the `length` bytes of the input from
`offset` on. `Parse` calls it on inputs of at least 512 bytes only, where every
location is in range, and drops the error it returns. -/
def GetValue (input : List UInt8) (offset length : Nat) : List UInt8 :=
  (input.drop offset).take length

/-- Modelled from the spec: `byteshelper.LittleEndianBinaryToInt64(buffer)`, not
among the sources. The spec has the 8 bytes at offset 0x30 read as "an 8-byte
little-endian integer"; the result type in `Parse` is `int64`, so the 64 bits are
taken as two's complement. -/
def LittleEndianBinaryToInt64 (buffer : List UInt8) : Int :=
  wrap64 (littleEndian buffer)

/-- The function `Parse` (vbr.go lines 37-82). `outOfRange` is what the
implementation makes of a `float64` too large for `uint`, see `pow2ToUint`.
Products of `uint`s wrap at `2^64`. -/
def Parse (outOfRange : Int → Nat) (input : List UInt8) :
    VolumeBootRecord × Option ParseError :=
  -- lines 39-44
  if input.length = 0 then (VolumeBootRecord.zero, some .receivedNilBytes)
  else if input.length < 512 then (VolumeBootRecord.zero, some .receivedLessThan512Bytes)
  -- lines 49-52
  else if magicNumber ≠ GetValue input 0x03 0x04 then
    (VolumeBootRecord.zero, some .noMagicNumber)
  else
    -- lines 55-59
    let bytesPerSector := littleEndian (GetValue input 0x0B 0x02)
    let sectorsPerCluster := ((GetValue input 0x0D 0x01).getD 0 0).toNat
    -- lines 61-65
    let clustersPerMFTRecord := ((GetValue input 0x40 0x01).getD 0 0).toNat
    if clustersPerMFTRecord < 128 then
      (VolumeBootRecord.zero, some (.clustersPerMftRecordLessThan128 clustersPerMFTRecord))
    else
      -- lines 66-68
      let signedTwosComplement := wrap8 (toInt8 clustersPerMFTRecord * -1)
      let mftRecordSize := pow2ToUint outOfRange signedTwosComplement
      let bytesPerCluster := (sectorsPerCluster * bytesPerSector) % 18446744073709551616
      -- lines 70-75
      let mftClusterOffset := LittleEndianBinaryToInt64 (GetValue input 0x30 0x08)
      if mftClusterOffset = 0 then
        (VolumeBootRecord.zero, some .failedToGetMftOffsetClusters)
      else
        -- lines 76-81
        ({ VolumeLetter := ""
           BytesPerSector := bytesPerSector
           SectorsPerCluster := sectorsPerCluster
           BytesPerCluster := bytesPerCluster
           MftOffset := wrap64 (mftClusterOffset * bytesPerCluster)
           MftRecordSize := mftRecordSize
           ClustersPerIndexRecord := ((GetValue input 0x44 0x01).getD 0 0).toNat }, none)

end vbr

namespace gofor

/-- The struct `volumeBootRecord` of ntfs_vbr.go; the numeric fields are `int64`. -/
structure volumeBootRecord where
  VolumeLetter : String
  BytesPerSector : Int
  SectorsPerCluster : Int
  BytesPerCluster : Int
  MftByteOffset : Int
  MftRecordSize : Int
  ClustersPerIndexRecord : Int
  deriving DecidableEq, Repr

/-- The zero value of `volumeBootRecord`, which the named result starts as. -/
def volumeBootRecord.zero : volumeBootRecord :=
  { VolumeLetter := "", BytesPerSector := 0, SectorsPerCluster := 0, BytesPerCluster := 0,
    MftByteOffset := 0, MftRecordSize := 0, ClustersPerIndexRecord := 0 }

/-- The errors `parseVolumeBootRecord` makes with `errors.New` and `errors.Errorf`. -/
inductive ParseError where
  | vbrIsInvalid
  | clustersPerMftRecordLessThan128 (clustersPerMFTRecord : Int)
  deriving DecidableEq, Repr

/-- How a call of `parseVolumeBootRecord` ends: it returns `(vbr, err)`, or a slice
expression or an index is out of range and it panics. -/
inductive Result where
  | ret (vbr : volumeBootRecord) (err : Option ParseError)
  | panic
  deriving DecidableEq, Repr

/-- Modelled from the spec: `convertLittleEndianByteSliceToInt64`, a function of the
package that is not among the sources. The spec has the 8 bytes at offset 0x30
read as "an 8-byte little-endian integer"; the result type is `int64`, so the 64
bits are taken as two's complement. -/
def convertLittleEndianByteSliceToInt64 (inBytes : List UInt8) : Int :=
  wrap64 (littleEndian inBytes)

/-- The slice expression `s[lo:hi]` on a slice whose capacity is its length. -/
def slice (s : List UInt8) (lo hi : Nat) : List UInt8 :=
  (s.drop lo).take (hi - lo)

/-- The function `parseVolumeBootRecord` (ntfs_vbr.go lines 29-69). The result `vbr`
is a named result: a `return` after an error hands back the fields set so far.
`errors.Wrap(err, ...)` of line 63 is `nil` for a `nil` error, and `err` is `nil`
there. `outOfRange` is what the implementation makes of a `float64` too large for
`int64`, see `pow2ToInt64`. -/
def parseVolumeBootRecord (outOfRange : Int → Int) (volumeBootRecordBytes : List UInt8) :
    Result :=
  -- lines 42-46
  if volumeBootRecordBytes.length < 0x03 + 0x04 then .panic
  else if slice volumeBootRecordBytes 0x03 (0x03 + 0x04) ≠ magicNumber then
    .ret volumeBootRecord.zero (some .vbrIsInvalid)
  -- lines 49-51
  else if volumeBootRecordBytes.length < 0x0b + 0x02 then .panic
  else
    let bytesPerSector : Int := littleEndian (slice volumeBootRecordBytes 0x0b (0x0b + 0x02))
    match volumeBootRecordBytes[0x0d]? with
    | none => .panic
    | some spc =>
      let sectorsPerCluster : Int := spc.toNat
      let vbr1 := { volumeBootRecord.zero with
        BytesPerSector := bytesPerSector, SectorsPerCluster := sectorsPerCluster }
      -- lines 52-56
      match volumeBootRecordBytes[0x40]? with
      | none => .panic
      | some c =>
        let clustersPerMFTRecord : Int := c.toNat
        if clustersPerMFTRecord < 128 then
          .ret vbr1 (some (.clustersPerMftRecordLessThan128 clustersPerMFTRecord))
        else
          -- lines 57-59
          let signedTwosComplement := wrap8 (toInt8 c.toNat * -1)
          let vbr2 := { vbr1 with
            MftRecordSize := pow2ToInt64 outOfRange signedTwosComplement
            BytesPerCluster := wrap64 (sectorsPerCluster * bytesPerSector) }
          -- lines 60-65
          let mftClusterOffset :=
            convertLittleEndianByteSliceToInt64 (slice volumeBootRecordBytes 0x30 (0x30 + 0x08))
          if mftClusterOffset = 0 then .ret vbr2 none
          else
            -- lines 66-68
            match volumeBootRecordBytes[0x44]? with
            | none => .panic
            | some cpi =>
              .ret { vbr2 with
                MftByteOffset := wrap64 (mftClusterOffset * vbr2.BytesPerCluster)
                ClustersPerIndexRecord := cpi.toNat } none

end gofor

/-- A boot sector of 512 bytes with the magic number, 512 bytes per sector, 8
sectors per cluster, the MFT at cluster 4, the byte `recordSize` at offset 0x40
and 1 cluster per index record. -/
def demoSector (recordSize : UInt8) : List UInt8 :=
  [0xEB, 0x52, 0x90] ++ magicNumber ++ [0x20, 0x20, 0x20, 0x20] ++ [0x00, 0x02] ++ [0x08]
    ++ List.replicate 34 0 ++ [0x04, 0, 0, 0, 0, 0, 0, 0] ++ List.replicate 8 0
    ++ [recordSize] ++ [0, 0, 0] ++ [0x01] ++ List.replicate 443 0

/-- The offsets of the bytes of the six fields of the boot sector that `Parse` reads:
the magic number, the bytes per sector, the sectors per cluster, the MFT cluster
offset, the clusters per MFT record and the clusters per index record. -/
def documentedOffsets : List Nat :=
  [0x03, 0x04, 0x05, 0x06, 0x0B, 0x0C, 0x0D,
   0x30, 0x31, 0x32, 0x33, 0x34, 0x35, 0x36, 0x37, 0x40, 0x44]

/-- The counters of a reader between two pulls, before the end of the stream: the
reader is initialized, the extent index points at a run `cur` of the list, something
is left of it and not more than its length, the bytes delivered are fewer than
declared, and they are the lengths of the runs before `cur` plus what was taken of
`cur`. -/
def Tracking (r : dataRunsReader) : Prop :=
  r.initialized = true ∧
  ∃ cur, r.DataRuns[r.dataRunTracker]? = some cur ∧
    0 < r.dataRunBytesLeftToReadTracker ∧
    r.dataRunBytesLeftToReadTracker ≤ cur.Length ∧
    0 ≤ r.totalByesRead ∧ r.totalByesRead < r.totalFileSize ∧
    r.totalByesRead = sumLengths (r.DataRuns.take r.dataRunTracker)
      + (cur.Length - r.dataRunBytesLeftToReadTracker)

/-- The states a reader made by `newRawFileReader` over the runs `runs` with the
declared size `size` goes through: the state it is made in; then, the declared
size being `size`, or the sum of the lengths when `size` is 0, the states in the
middle of the file and the states after the end of the stream. -/
def Reached (runs : List DataRun) (size : Int) (r : dataRunsReader) : Prop :=
  r.DataRuns = runs ∧
  ((r.initialized = false ∧ r.totalByesRead = 0 ∧ r.totalFileSize = size) ∨
   (r.totalFileSize = (if size = 0 then sumLengths runs else size) ∧
    (Tracking r ∨ Exhausted r)))

/-! # Theorems -/

/-! ## Arithmetic of the wrap-around -/

theorem wrap64_of_I64 {x : Int} (h : I64 x) : wrap64 x = x := by
  unfold I64 at h
  unfold wrap64
  omega

theorem wrap64_I64 (x : Int) : I64 (wrap64 x) := by
  unfold I64 wrap64
  omega

theorem wrap64_add_left (a b : Int) : wrap64 (wrap64 a + b) = wrap64 (a + b) := by
  unfold wrap64
  omega

theorem addLengths_eq (runs : List DataRun) (a : Int) :
    addLengths (wrap64 a) runs = wrap64 (a + sumLengths runs) := by
  induction runs generalizing a with
  | nil => simp [addLengths, sumLengths]
  | cons d ds ih =>
    have h := ih (a + d.Length)
    simp only [addLengths, List.foldl_cons] at h ⊢
    rw [wrap64_add_left, h, sumLengths]
    congr 1
    omega

theorem addLengths_zero (runs : List DataRun) :
    addLengths 0 runs = wrap64 (sumLengths runs) := by
  have h0 : wrap64 0 = 0 := by decide
  have := addLengths_eq runs 0
  rw [h0] at this
  rw [this, Int.zero_add]

theorem clampToRun_eq {left R : Int} (hd : I64 (left - R)) :
    clampToRun left R = (min R left, left - min R left) := by
  have hw : wrap64 (left - R) = left - R := wrap64_of_I64 hd
  unfold clampToRun
  rw [hw]
  by_cases h1 : left - R = 0
  · rw [if_pos h1]
    have : min R left = R := by omega
    rw [this]
  · rw [if_neg h1]
    by_cases h2 : left - R < 0
    · rw [if_pos h2]
      have : min R left = left := by omega
      rw [this]; simp
    · rw [if_neg h2]
      have : min R left = R := by omega
      rw [this]

theorem clampToFile_eq {t S b : Int} (htb : I64 (t + b)) (hS : I64 (S - t)) :
    clampToFile t S b = min b (S - t) := by
  have hw : wrap64 (t + b) = t + b := wrap64_of_I64 htb
  have hw2 : wrap64 (S - t) = S - t := wrap64_of_I64 hS
  unfold clampToFile
  rw [hw, hw2]
  by_cases h : t + b > S
  · rw [if_pos h]; omega
  · rw [if_neg h]; omega

theorem sumLengths_nonneg (runs : List DataRun) (h : ∀ d ∈ runs, 0 < d.Length) :
    0 ≤ sumLengths runs := by
  induction runs with
  | nil => simp [sumLengths]
  | cons d ds ih =>
    have h1 := h d (List.mem_cons_self _ _)
    have h2 := ih (fun x hx => h x (List.mem_cons_of_mem _ hx))
    simp only [sumLengths]
    omega

theorem sumLengths_pos (first : DataRun) (tl : List DataRun)
    (h : ∀ d ∈ first :: tl, 0 < d.Length) : 0 < sumLengths (first :: tl) := by
  have h1 := h first (List.mem_cons_self _ _)
  have h2 := sumLengths_nonneg tl (fun x hx => h x (List.mem_cons_of_mem _ hx))
  simp only [sumLengths]
  omega

/-! ## Buffers -/

theorem readBuffer_length (h : VolumeHandler) (k : Nat) : (readBuffer h k).length = k := by
  unfold readBuffer VolumeHandler.Read
  simp only [List.length_append, List.length_replicate, List.length_take]
  omega

theorem readBuffer_inVolume (h : VolumeHandler) (k : Nat) (hin : h.pos + k ≤ h.data.length) :
    readBuffer h k = (h.data.drop h.pos).take k := by
  unfold readBuffer VolumeHandler.Read
  have : ((h.data.drop h.pos).take k).length = k := by
    simp only [List.length_take, List.length_drop]; omega
  simp only [this, Nat.sub_self, List.replicate_zero, List.append_nil]

theorem copyBytes_take (buf src : List UInt8) (h : src.length ≤ buf.length) :
    (copyBytes buf src).take src.length = src ∧
    (copyBytes buf src).drop src.length = buf.drop src.length ∧
    (copyBytes buf src).length = buf.length := by
  unfold copyBytes
  rw [List.take_of_length_le h]
  refine ⟨by simp, by simp, ?_⟩
  simp only [List.length_append, List.length_drop]
  omega

theorem take_drop_split (data : List UInt8) (pos w left : Nat) (hw : w ≤ left) :
    (data.drop pos).take left =
      (data.drop pos).take w ++ (data.drop (pos + w)).take (left - w) := by
  have h : left = w + (left - w) := by omega
  conv_lhs => rw [h]
  rw [List.take_add, List.drop_drop]

/-! ## One pull -/

theorem want_eq (r : dataRunsReader) (R : Int) (hno : NoOverflow r R) :
    clampToFile r.totalByesRead r.totalFileSize (clampToRun r.dataRunBytesLeftToReadTracker R).1
      = wantOf r R := by
  obtain ⟨_, h2, h3, h4⟩ := hno
  rw [clampToRun_eq h2]
  simp only []
  rw [clampToFile_eq h3 h4]
  unfold wantOf
  omega

theorem left_eq (r : dataRunsReader) (R : Int) (hno : NoOverflow r R) :
    (clampToRun r.dataRunBytesLeftToReadTracker R).2
      = r.dataRunBytesLeftToReadTracker - min R r.dataRunBytesLeftToReadTracker := by
  rw [clampToRun_eq hno.2.1]

theorem total_eq (r : dataRunsReader) (R : Int) (hno : NoOverflow r R) :
    wrap64 (r.totalByesRead + wantOf r R) = r.totalByesRead + wantOf r R := by
  obtain ⟨h1, h2, h3, h4⟩ := hno
  apply wrap64_of_I64
  unfold wantOf I64 at *
  omega

theorem noOverflow_of_sane (r : dataRunsReader) (R : Int) (hs : Sane r) (hR0 : 0 ≤ R)
    (hR : I64 R) : NoOverflow r R ∧ 0 ≤ wantOf r R := by
  obtain ⟨h1, h2, h3, h4, h5⟩ := hs
  unfold NoOverflow wantOf I64 at *
  omega

/-- What a pull does when nothing overflows and the request is not negative. -/
theorem readAfterInit_spec (r : dataRunsReader) (buf : List UInt8)
    (hno : NoOverflow r buf.length) (hn : 0 ≤ wantOf r buf.length) :
    (readAfterInit r buf).want = wantOf r buf.length ∧
    (readAfterInit r buf).dst = copyBytes buf (readBuffer r.Handler (wantOf r buf.length).toNat) ∧
    (readAfterInit r buf).reader.DataRuns = r.DataRuns ∧
    (readAfterInit r buf).reader.totalFileSize = r.totalFileSize ∧
    (readAfterInit r buf).reader.initialized = r.initialized ∧
    (readAfterInit r buf).reader.totalByesRead = r.totalByesRead + wantOf r buf.length ∧
    (r.totalFileSize = r.totalByesRead + wantOf r buf.length →
      (readAfterInit r buf).outcome = .ret 0 (some .EOF) ∧
      (readAfterInit r buf).reader.dataRunTracker = r.dataRunTracker ∧
      (readAfterInit r buf).reader.dataRunBytesLeftToReadTracker =
        r.dataRunBytesLeftToReadTracker - min (buf.length : Int) r.dataRunBytesLeftToReadTracker ∧
      (readAfterInit r buf).reader.Handler = afterDeviceRead r.Handler (wantOf r buf.length)) ∧
    (r.totalFileSize ≠ r.totalByesRead + wantOf r buf.length →
      (buf.length : Int) < r.dataRunBytesLeftToReadTracker →
      (readAfterInit r buf).outcome =
        .ret ((r.Handler.data.drop r.Handler.pos).take (wantOf r buf.length).toNat).length none ∧
      (readAfterInit r buf).reader.dataRunTracker = r.dataRunTracker ∧
      (readAfterInit r buf).reader.dataRunBytesLeftToReadTracker =
        r.dataRunBytesLeftToReadTracker - buf.length ∧
      (readAfterInit r buf).reader.Handler = afterDeviceRead r.Handler (wantOf r buf.length)) ∧
    (r.totalFileSize ≠ r.totalByesRead + wantOf r buf.length →
      r.dataRunBytesLeftToReadTracker ≤ buf.length →
      (readAfterInit r buf).reader.dataRunTracker = r.dataRunTracker + 1 ∧
      (r.DataRuns[r.dataRunTracker + 1]? = none →
        (readAfterInit r buf).outcome = .panic .indexOutOfRange ∧
        (readAfterInit r buf).reader.dataRunBytesLeftToReadTracker = 0 ∧
        (readAfterInit r buf).reader.Handler = afterDeviceRead r.Handler (wantOf r buf.length)) ∧
      (∀ run, r.DataRuns[r.dataRunTracker + 1]? = some run →
        (readAfterInit r buf).outcome =
          .ret ((r.Handler.data.drop r.Handler.pos).take (wantOf r buf.length).toNat).length none ∧
        (readAfterInit r buf).reader.dataRunBytesLeftToReadTracker = run.Length ∧
        (readAfterInit r buf).reader.Handler =
          { ((afterDeviceRead r.Handler (wantOf r buf.length)).Seek run.AbsoluteOffset).1 with
            lastOffset := wrap64
              (((afterDeviceRead r.Handler (wantOf r buf.length)).Seek run.AbsoluteOffset).2
                - wantOf r buf.length) })) := by
  have hw := want_eq r buf.length hno
  have hl := left_eq r buf.length hno
  have ht := total_eq r buf.length hno
  have hnn : ¬ wantOf r buf.length < 0 := by omega
  unfold readAfterInit
  simp only [hw, hl, ht, if_neg hnn]
  by_cases hE : r.totalFileSize = r.totalByesRead + wantOf r ↑buf.length
  · simp only [if_pos hE]
    refine ⟨trivial, rfl, trivial, trivial, trivial, trivial,
      fun _ => ⟨trivial, trivial, trivial, rfl⟩, fun h => absurd hE h, fun h => absurd hE h⟩
  · simp only [if_neg hE]
    by_cases hL : (buf.length : Int) < r.dataRunBytesLeftToReadTracker
    · have hL2 : ¬ r.dataRunBytesLeftToReadTracker
          - min (buf.length : Int) r.dataRunBytesLeftToReadTracker = 0 := by omega
      have hL3 : min (buf.length : Int) r.dataRunBytesLeftToReadTracker = buf.length := by omega
      simp only [if_neg hL2]
      refine ⟨trivial, rfl, trivial, trivial, trivial, trivial, fun h => absurd h hE,
        fun _ _ => ⟨rfl, trivial, ?_, rfl⟩, fun _ h => by omega⟩
      simp only [hL3]
    · have hL2 : r.dataRunBytesLeftToReadTracker
          - min (buf.length : Int) r.dataRunBytesLeftToReadTracker = 0 := by omega
      simp only [if_pos hL2]
      cases hg : r.DataRuns[r.dataRunTracker + 1]? with
      | none =>
        simp only []
        refine ⟨trivial, rfl, trivial, trivial, trivial, trivial, fun h => absurd h hE,
          fun _ h => absurd h hL,
          fun _ _ => ⟨trivial, fun _ => ⟨trivial, hL2, rfl⟩, fun run hrun => by simp at hrun⟩⟩
      | some run0 =>
        simp only []
        refine ⟨trivial, rfl, trivial, trivial, trivial, trivial, fun h => absurd h hE,
          fun _ h => absurd h hL,
          fun _ _ => ⟨trivial, fun h => by simp at h, fun run hrun => ?_⟩⟩
        have : run0 = run := by simpa using hrun
        subst this
        exact ⟨rfl, rfl, rfl⟩

/-- The result of a pull in terms of the request as lines 66-79 cut it down,
whatever the arithmetic did. -/
theorem readAfterInit_raw (r : dataRunsReader) (buf : List UInt8) :
    (readAfterInit r buf).want =
      clampToFile r.totalByesRead r.totalFileSize
        (clampToRun r.dataRunBytesLeftToReadTracker buf.length).1 ∧
    ((readAfterInit r buf).want < 0 →
      (readAfterInit r buf).outcome = .panic .makesliceLenOutOfRange ∧
      (readAfterInit r buf).dst = buf) ∧
    (0 ≤ (readAfterInit r buf).want →
      (readAfterInit r buf).dst =
        copyBytes buf (readBuffer r.Handler (readAfterInit r buf).want.toNat) ∧
      ((readAfterInit r buf).reader.totalByesRead = (readAfterInit r buf).reader.totalFileSize →
        (readAfterInit r buf).outcome = .ret 0 (some .EOF)) ∧
      (∀ n, (readAfterInit r buf).outcome = .ret n (some .EOF) →
        n = 0 ∧
        (readAfterInit r buf).reader.totalByesRead = (readAfterInit r buf).reader.totalFileSize)) := by
  unfold readAfterInit
  simp only []
  split_ifs with h1 h2 h3
  · refine ⟨rfl, fun _ => ⟨rfl, rfl⟩, fun h => absurd h1 (by simpa using h)⟩
  · refine ⟨rfl, fun h => absurd h h1, fun _ => ⟨rfl, fun _ => rfl, fun n hn => ?_⟩⟩
    simp only [Outcome.ret.injEq] at hn
    exact ⟨hn.1.symm, h2.symm⟩
  · split
    · refine ⟨rfl, fun h => absurd h h1, fun _ => ⟨rfl, fun h => absurd h.symm h2, fun n hn => ?_⟩⟩
      simp at hn
    · refine ⟨rfl, fun h => absurd h h1, fun _ => ⟨rfl, fun h => absurd h.symm h2, fun n hn => ?_⟩⟩
      simp at hn
  · refine ⟨rfl, fun h => absurd h h1, fun _ => ⟨rfl, fun h => absurd h.symm h2, fun n hn => ?_⟩⟩
    simp at hn

theorem Read_cons (r : dataRunsReader) (buf : List UInt8) (first : DataRun)
    (tl : List DataRun) (hruns : r.DataRuns = first :: tl) :
    Read r buf = readAfterInit (initReader r buf.length first) buf := by
  unfold Read
  rw [hruns]

theorem Read_nil (r : dataRunsReader) (buf : List UInt8) (hruns : r.DataRuns = []) :
    Read r buf = { reader := r, dst := buf, want := 0,
                   outcome := .ret 0 (some .ErrUnexpectedEOF) } := by
  unfold Read
  rw [hruns]

theorem initReader_frame (r : dataRunsReader) (R : Int) (first : DataRun) :
    (initReader r R first).DataRuns = r.DataRuns ∧
    (initReader r R first).initialized = true ∧
    (initReader r R first).totalByesRead = r.totalByesRead ∧
    (r.initialized = true → initReader r R first = r) := by
  unfold initReader
  cases h : r.initialized <;> simp [h]

theorem readAfterInit_frame (r : dataRunsReader) (buf : List UInt8) :
    (readAfterInit r buf).reader.DataRuns = r.DataRuns ∧
    (readAfterInit r buf).reader.initialized = r.initialized ∧
    (readAfterInit r buf).reader.totalFileSize = r.totalFileSize := by
  unfold readAfterInit
  simp only []
  split_ifs
  · exact ⟨rfl, rfl, rfl⟩
  · exact ⟨rfl, rfl, rfl⟩
  · split <;> exact ⟨rfl, rfl, rfl⟩
  · exact ⟨rfl, rfl, rfl⟩

theorem Read_frame (r : dataRunsReader) (buf : List UInt8) :
    (Read r buf).reader.DataRuns = r.DataRuns ∧
    (r.initialized = true →
      (Read r buf).reader.initialized = true ∧
      (Read r buf).reader.totalFileSize = r.totalFileSize) := by
  cases hruns : r.DataRuns with
  | nil =>
    rw [Read_nil r buf hruns]
    exact ⟨hruns, fun h => ⟨h, rfl⟩⟩
  | cons first tl =>
    rw [Read_cons r buf first tl hruns]
    obtain ⟨h1, h2, h3⟩ := readAfterInit_frame (initReader r buf.length first) buf
    obtain ⟨g1, g2, _, g4⟩ := initReader_frame r buf.length first
    refine ⟨by rw [h1, g1, hruns], fun hi => ⟨by rw [h2, g2], by rw [h3, g4 hi]⟩⟩

theorem readerAfter_frame (bufs : List (List UInt8)) (r : dataRunsReader)
    (hi : r.initialized = true) :
    (readerAfter r bufs).initialized = true ∧
    (readerAfter r bufs).totalFileSize = r.totalFileSize ∧
    (readerAfter r bufs).DataRuns = r.DataRuns := by
  induction bufs generalizing r with
  | nil => exact ⟨hi, rfl, rfl⟩
  | cons b bs ih =>
    obtain ⟨h1, h2⟩ := Read_frame r b
    obtain ⟨h3, h4⟩ := h2 hi
    obtain ⟨i1, i2, i3⟩ := ih (Read r b).reader h3
    simp only [readerAfter, List.foldl_cons] at i1 i2 i3 ⊢
    exact ⟨i1, by rw [i2, h4], by rw [i3, h1]⟩

/-! ## After the end of the stream -/

theorem exhausted_pull (e : dataRunsReader) (b : List UInt8) (he : Exhausted e)
    (hb : I64 b.length) :
    Read e b =
      { reader := { e with dataRunBytesLeftToReadTracker :=
          e.dataRunBytesLeftToReadTracker - min (b.length : Int) e.dataRunBytesLeftToReadTracker }
        dst := b, want := 0, outcome := .ret 0 (some .EOF) } ∧
    Exhausted (Read e b).reader := by
  obtain ⟨h1, h2, h3, h4, h5, h6, h7⟩ := he
  have hR0 : (0 : Int) ≤ b.length := by omega
  have hs : Sane e := by
    unfold Sane I64 at *
    omega
  obtain ⟨hno, hn⟩ := noOverflow_of_sane e b.length hs hR0 hb
  have hw0 : wantOf e b.length = 0 := by
    unfold wantOf; omega
  have key : Read e b =
      { reader := { e with dataRunBytesLeftToReadTracker :=
          e.dataRunBytesLeftToReadTracker - min (b.length : Int) e.dataRunBytesLeftToReadTracker }
        dst := b, want := 0, outcome := .ret 0 (some .EOF) } := by
    cases hruns : e.DataRuns with
    | nil => exact absurd hruns h1
    | cons first tl =>
      rw [Read_cons e b first tl hruns, (initReader_frame e b.length first).2.2.2 h2]
      have hw := want_eq e b.length hno
      have hl := left_eq e b.length hno
      rw [hw0] at hw
      have hlo : wrap64 (e.Handler.lastOffset + 0) = e.Handler.lastOffset := by
        rw [Int.add_zero, wrap64_of_I64 h7]
      have ht : wrap64 (e.totalByesRead + 0) = e.totalByesRead := by
        rw [Int.add_zero, h3, wrap64_of_I64 hs.2.2.2.1]
      unfold readAfterInit
      simp only [hw, hl, hlo, ht, lt_irrefl, if_false, Int.toNat_zero]
      simp [VolumeHandler.Read, readBuffer, copyBytes, h3, hruns]
  refine ⟨key, ?_⟩
  rw [key]
  unfold Exhausted I64 at *
  simp only []
  refine ⟨h1, h2, h3, h4, ?_, ?_, h7⟩ <;> omega

theorem exhausted_readerAfter (later : List (List UInt8)) (e : dataRunsReader)
    (he : Exhausted e) (hlater : ∀ b ∈ later, I64 (b.length : Int)) :
    Exhausted (readerAfter e later) ∧
    (readerAfter e later).totalByesRead = e.totalByesRead ∧
    (readerAfter e later).dataRunTracker = e.dataRunTracker ∧
    (readerAfter e later).totalFileSize = e.totalFileSize ∧
    (readerAfter e later).Handler = e.Handler ∧
    (readerAfter e later).DataRuns = e.DataRuns ∧
    (readerAfter e later).dataRunBytesLeftToReadTracker ≤ e.dataRunBytesLeftToReadTracker := by
  induction later generalizing e with
  | nil => exact ⟨he, rfl, rfl, rfl, rfl, rfl, le_refl _⟩
  | cons b bs ih =>
    obtain ⟨hkey, hex⟩ := exhausted_pull e b he (hlater b (List.mem_cons_self _ _))
    have ih2 := ih (Read e b).reader hex (fun c hc => hlater c (List.mem_cons_of_mem _ hc))
    simp only [readerAfter, List.foldl_cons] at ih2 ⊢
    obtain ⟨i1, i2, i3, i4, i5, i6, i7⟩ := ih2
    have k2 : (Read e b).reader.totalByesRead = e.totalByesRead := by rw [hkey]
    have k3 : (Read e b).reader.dataRunTracker = e.dataRunTracker := by rw [hkey]
    have k4 : (Read e b).reader.totalFileSize = e.totalFileSize := by rw [hkey]
    have k5 : (Read e b).reader.Handler = e.Handler := by rw [hkey]
    have k6 : (Read e b).reader.DataRuns = e.DataRuns := by rw [hkey]
    have k7 : (Read e b).reader.dataRunBytesLeftToReadTracker =
        e.dataRunBytesLeftToReadTracker
          - min (b.length : Int) e.dataRunBytesLeftToReadTracker := by rw [hkey]
    have h5 := he.2.2.2.2.1
    refine ⟨i1, i2.trans k2, i3.trans k3, i4.trans k4, i5.trans k5, i6.trans k6, ?_⟩
    omega

theorem exhausted_of_eof (r : dataRunsReader) (buf : List UInt8) (hruns : r.DataRuns ≠ [])
    (hinit : r.initialized = true) (hR : I64 buf.length) (hs : Sane r) (n : Int)
    (hEOF : (readAfterInit r buf).outcome = .ret n (some .EOF)) :
    Exhausted (readAfterInit r buf).reader := by
  have hR0 : (0 : Int) ≤ buf.length := by omega
  obtain ⟨hno, hn⟩ := noOverflow_of_sane r buf.length hs hR0 hR
  obtain ⟨s1, s2, s3, s4, s5, s6, s7, _, _⟩ := readAfterInit_spec r buf hno hn
  obtain ⟨q1, q2, q3⟩ := readAfterInit_raw r buf
  have hw : 0 ≤ (readAfterInit r buf).want := by rw [s1]; exact hn
  have heq := ((q3 hw).2.2 n hEOF).2
  rw [s6, s4] at heq
  obtain ⟨_, t2, t3, t4⟩ := s7 heq.symm
  obtain ⟨a1, a2, a3, a4, a5⟩ := hs
  have hwle : wantOf r buf.length ≤ min (buf.length : Int) r.dataRunBytesLeftToReadTracker := by
    unfold wantOf; omega
  unfold Exhausted
  rw [s3, s5, s6, s4, t3, t4]
  refine ⟨hruns, hinit, heq, by omega, by omega, ?_, wrap64_I64 _⟩
  unfold I64 at *
  omega

/-! ## A run of pulls -/

/-- One pull of a reader in the middle of a file: it takes `wantOf` bytes, all of
them from the current run, and then either the file is complete and the pull
signals `io.EOF`, or the reader is in the middle of the file again, that many
bytes further, or there is no run left to go to and the pull panics. -/
theorem streaming_step (r : dataRunsReader) (cur : DataRun) (rest : List DataRun)
    (buf : List UInt8) (hst : Streaming r cur rest)
    (hR0 : 0 < buf.length) (hR : I64 buf.length) :
    0 < wantOf r buf.length ∧
    wantOf r buf.length ≤ r.totalFileSize - r.totalByesRead ∧
    wantOf r buf.length ≤ r.dataRunBytesLeftToReadTracker ∧
    (Read r buf).want = wantOf r buf.length ∧
    (Read r buf).dst.length = buf.length ∧
    (Read r buf).dst.take (wantOf r buf.length).toNat =
      (r.Handler.data.drop r.Handler.pos).take (wantOf r buf.length).toNat ∧
    ((r.Handler.data.drop r.Handler.pos).take (wantOf r buf.length).toNat).length
      = (wantOf r buf.length).toNat ∧
    (Read r buf).reader.totalFileSize = r.totalFileSize ∧
    (Read r buf).reader.totalByesRead = r.totalByesRead + wantOf r buf.length ∧
    (Read r buf).reader.DataRuns = r.DataRuns ∧
    ((r.totalFileSize = r.totalByesRead + wantOf r buf.length ∧
        (Read r buf).outcome = .ret 0 (some .EOF) ∧
        (remainingBytes r rest).take (r.totalFileSize - r.totalByesRead).toNat =
          (r.Handler.data.drop r.Handler.pos).take (wantOf r buf.length).toNat) ∨
     (r.totalFileSize ≠ r.totalByesRead + wantOf r buf.length ∧
        (Read r buf).outcome = .ret (wantOf r buf.length) none ∧
        ∃ cur2 rest2, Streaming (Read r buf).reader cur2 rest2 ∧
          (Read r buf).reader.totalByesRead
              + (Read r buf).reader.dataRunBytesLeftToReadTracker + sumLengths rest2
            = r.totalByesRead + r.dataRunBytesLeftToReadTracker + sumLengths rest ∧
          remainingBytes r rest =
            (r.Handler.data.drop r.Handler.pos).take (wantOf r buf.length).toNat
              ++ remainingBytes (Read r buf).reader rest2) ∨
     (r.totalFileSize ≠ r.totalByesRead + wantOf r buf.length ∧
        wantOf r buf.length = r.dataRunBytesLeftToReadTracker ∧ rest = [] ∧
        (Read r buf).reader.dataRunTracker = r.DataRuns.length ∧
        (Read r buf).outcome = .panic .indexOutOfRange)) := by
  obtain ⟨hi, hdrop, hl0, hlc, hpos, hcur, hrest, ht0, htS, hS, hsum⟩ := hst
  have hrestnn := sumLengths_nonneg rest (fun d hd => (hrest d hd).1)
  have hne : r.DataRuns ≠ [] := by
    intro h
    rw [h] at hdrop
    simp at hdrop
  obtain ⟨first, tl, hruns⟩ := List.exists_cons_of_ne_nil hne
  have hread : Read r buf = readAfterInit r buf := by
    rw [Read_cons r buf first tl hruns, (initReader_frame r buf.length first).2.2.2 hi]
  have hsane : Sane r := by
    unfold Sane I64 at *
    omega
  obtain ⟨hno, hn⟩ := noOverflow_of_sane r buf.length hsane (by omega) hR
  obtain ⟨s1, s2, s3, s4, s5, s6, s7, s8, s9⟩ := readAfterInit_spec r buf hno hn
  have hwdef : wantOf r buf.length = min (buf.length : Int)
      (min r.dataRunBytesLeftToReadTracker (r.totalFileSize - r.totalByesRead)) := rfl
  have hw0 : 0 < wantOf r buf.length := by omega
  have hwS : wantOf r buf.length ≤ r.totalFileSize - r.totalByesRead := by omega
  have hwl : wantOf r buf.length ≤ r.dataRunBytesLeftToReadTracker := by omega
  have hwR : wantOf r buf.length ≤ buf.length := by omega
  unfold DataRun.inVolume at hcur
  have hinvol : r.Handler.pos + (wantOf r buf.length).toNat ≤ r.Handler.data.length := by
    omega
  have hblen := readBuffer_length r.Handler (wantOf r buf.length).toNat
  have hc := copyBytes_take buf (readBuffer r.Handler (wantOf r buf.length).toNat)
    (by rw [hblen]; omega)
  rw [hblen] at hc
  have hnread : ((r.Handler.data.drop r.Handler.pos).take (wantOf r buf.length).toNat).length
      = (wantOf r buf.length).toNat := by
    simp only [List.length_take, List.length_drop]; omega
  rw [hread]
  refine ⟨hw0, hwS, hwl, s1, by rw [s2]; exact hc.2.2,
    by rw [s2, hc.1]; exact readBuffer_inVolume _ _ hinvol, hnread, s4, s6, s3, ?_⟩
  by_cases hE : r.totalFileSize = r.totalByesRead + wantOf r buf.length
  · left
    refine ⟨hE, (s7 hE).1, ?_⟩
    unfold remainingBytes
    have hlen : ((r.Handler.data.drop r.Handler.pos).take
        r.dataRunBytesLeftToReadTracker.toNat).length = r.dataRunBytesLeftToReadTracker.toNat := by
      simp only [List.length_take, List.length_drop]; omega
    have e1 : (r.totalFileSize - r.totalByesRead).toNat = (wantOf r buf.length).toNat := by
      omega
    rw [e1, List.take_append_of_le_length (by rw [hlen]; omega), List.take_take]
    congr 1
    omega
  · right
    by_cases hL : (buf.length : Int) < r.dataRunBytesLeftToReadTracker
    · left
      obtain ⟨t1, t2, t3, t4⟩ := s8 hE hL
      have hwR2 : wantOf r buf.length = buf.length := by omega
      refine ⟨hE, ?_, cur, rest, ?_, ?_, ?_⟩
      · rw [t1, hnread]
        congr 1
        omega
      · unfold Streaming I64 DataRun.inVolume at *
        rw [s5, s3, t2, t3, t4, s6, s4]
        unfold afterDeviceRead
        simp only [hnread]
        refine ⟨hi, hdrop, by omega, by omega, ?_, hcur, hrest, by omega, by omega, hS, by omega⟩
        push_cast
        omega
      · rw [s6, t3]; omega
      · unfold remainingBytes
        rw [t4, t3]
        unfold afterDeviceRead
        simp only [hnread]
        rw [← List.append_assoc]
        congr 1
        have e2 : (r.dataRunBytesLeftToReadTracker - (buf.length : Int)).toNat =
            r.dataRunBytesLeftToReadTracker.toNat - (wantOf r buf.length).toNat := by omega
        rw [e2]
        exact take_drop_split _ _ _ _ (by omega)
    · have hL2 : r.dataRunBytesLeftToReadTracker ≤ buf.length := by omega
      obtain ⟨t1, t2, t3⟩ := s9 hE hL2
      have hwl2 : wantOf r buf.length = r.dataRunBytesLeftToReadTracker := by omega
      have hdrop1 : r.DataRuns.drop (r.dataRunTracker + 1) = rest := by
        rw [← List.tail_drop, hdrop, List.tail_cons]
      cases hrest2 : rest with
      | nil =>
        right
        rw [hrest2] at hdrop1
        have hlen : r.DataRuns.length ≤ r.dataRunTracker + 1 := List.drop_eq_nil_iff.mp hdrop1
        have hlen2 : r.dataRunTracker < r.DataRuns.length := by
          by_contra hcon
          have : r.DataRuns.drop r.dataRunTracker = [] :=
            List.drop_eq_nil_iff.mpr (by omega)
          rw [this] at hdrop
          simp at hdrop
        have hnone : r.DataRuns[r.dataRunTracker + 1]? = none := List.getElem?_eq_none hlen
        exact ⟨hE, hwl2, rfl, by rw [t1]; omega, (t2 hnone).1⟩
      | cons nxt rest2 =>
        left
        rw [hrest2] at hdrop1
        have hget : r.DataRuns[r.dataRunTracker + 1]? = some nxt := by
          have := List.getElem?_drop r.DataRuns (r.dataRunTracker + 1) 0
          rw [hdrop1] at this
          simpa using this.symm
        obtain ⟨u1, u2, u3⟩ := t3 nxt hget
        have hnxt := hrest nxt (by rw [hrest2]; exact List.mem_cons_self _ _)
        have hseek : (afterDeviceRead r.Handler (wantOf r buf.length)).Seek nxt.AbsoluteOffset
            = ({ afterDeviceRead r.Handler (wantOf r buf.length) with
                  pos := nxt.AbsoluteOffset.toNat }, nxt.AbsoluteOffset) := by
          unfold VolumeHandler.Seek
          rw [if_neg (by unfold DataRun.inVolume at hnxt; omega)]
        have hsl : sumLengths (nxt :: rest2) = nxt.Length + sumLengths rest2 := rfl
        refine ⟨hE, ?_, nxt, rest2, ?_, ?_, ?_⟩
        · rw [u1, hnread]
          congr 1
          omega
        · unfold Streaming
          rw [s5, s3, t1, u2, u3, s6, s4, hseek]
          simp only [afterDeviceRead]
          rw [hrest2] at hrest hsum
          unfold I64 DataRun.inVolume at *
          refine ⟨hi, hdrop1, hnxt.1, le_refl _, by omega, hnxt.2,
            fun d hd => hrest d (List.mem_cons_of_mem _ hd), by omega, by omega, hS, by omega⟩
        · rw [s6, u2]; omega
        · unfold remainingBytes
          rw [u3, u2, hseek]
          simp only [afterDeviceRead]
          rw [hwl2]
          simp only [fileBytes, extentBytes]

theorem finalOutcome_cons (res : ReadResult) (trace : List ReadResult) (o : Outcome)
    (h : finalOutcome trace = some o) : finalOutcome (res :: trace) = some o := by
  cases trace with
  | nil => simp [finalOutcome] at h
  | cons a l => simpa [finalOutcome] using h

/-- A run of pulls from the middle of a file whose declared size the runs cover:
it ends with `io.EOF`, the bytes copied are the next bytes of the file up to the
declared size, and the counts returned fall short of that many. -/
theorem pullAll_streaming (fuel : Nat) :
    ∀ (r : dataRunsReader) (cur : DataRun) (rest : List DataRun) (buf : List UInt8),
    Streaming r cur rest →
    r.totalFileSize ≤ r.totalByesRead + r.dataRunBytesLeftToReadTracker + sumLengths rest →
    0 < buf.length → I64 buf.length →
    (r.totalFileSize - r.totalByesRead).toNat ≤ fuel →
    ∃ trace, pullAll fuel r buf = some trace ∧
      finalOutcome trace = some (.ret 0 (some .EOF)) ∧
      copiedBytes trace = (remainingBytes r rest).take (r.totalFileSize - r.totalByesRead).toNat ∧
      0 ≤ countedBytes trace ∧
      countedBytes trace < r.totalFileSize - r.totalByesRead := by
  induction fuel with
  | zero =>
    intro r cur rest buf hst _ _ _ hfuel
    have := hst.2.2.2.2.2.2.2.2.1
    omega
  | succ fuel ih =>
    intro r cur rest buf hst hfit hR0 hR hfuel
    obtain ⟨hw0, hwS, hwl, hwant, hdlen, hdst, hlen, hS2, ht2, _, hcase⟩ :=
      streaming_step r cur rest buf hst hR0 hR
    rcases hcase with ⟨hE, hout, hrem⟩ | ⟨hE, hout, cur2, rest2, hst2, hinv, hrem⟩ |
      ⟨hE, hwl2, hnil, _, _⟩
    · refine ⟨[Read r buf], ?_, ?_, ?_, ?_, ?_⟩
      · simp only [pullAll, hout]
      · simp only [finalOutcome, hout]
      · simp only [copiedBytes, hwant, hdst, List.append_nil, hrem]
      · simp only [countedBytes, hout]; omega
      · simp only [countedBytes, hout]; omega
    · have hfuel2 : ((Read r buf).reader.totalFileSize
          - (Read r buf).reader.totalByesRead).toNat ≤ fuel := by
        rw [hS2, ht2]; omega
      obtain ⟨trace, h1, h2, h3, h4, h5⟩ :=
        ih (Read r buf).reader cur2 rest2 (Read r buf).dst hst2 (by rw [hS2, hinv]; exact hfit)
          (by rw [hdlen]; exact hR0) (by rw [hdlen]; exact hR) hfuel2
      refine ⟨Read r buf :: trace, ?_, finalOutcome_cons _ _ _ h2, ?_, ?_, ?_⟩
      · simp only [pullAll, hout, h1, Option.map_some']
      · simp only [copiedBytes, hwant, hdst, h3, hrem, hS2, ht2]
        have e : (r.totalFileSize - r.totalByesRead).toNat =
            ((r.Handler.data.drop r.Handler.pos).take (wantOf r buf.length).toNat).length
              + (r.totalFileSize - (r.totalByesRead + wantOf r buf.length)).toNat := by
          rw [hlen]; omega
        rw [e, List.take_append]
      · simp only [countedBytes, hout]; omega
      · simp only [countedBytes, hout]
        rw [hS2, ht2] at h5
        omega
    · rw [hnil] at hfit
      simp only [sumLengths] at hfit
      omega

/-- A run of pulls from the middle of a file whose declared size is more than the
runs hold: all the bytes of the runs are copied, and the pull that takes the last
of them panics with an index out of range. -/
theorem pullAll_overdeclared (fuel : Nat) :
    ∀ (r : dataRunsReader) (cur : DataRun) (rest : List DataRun) (buf : List UInt8),
    Streaming r cur rest →
    r.totalByesRead + r.dataRunBytesLeftToReadTracker + sumLengths rest < r.totalFileSize →
    0 < buf.length → I64 buf.length →
    (r.dataRunBytesLeftToReadTracker + sumLengths rest).toNat ≤ fuel →
    ∃ trace, pullAll fuel r buf = some trace ∧
      finalOutcome trace = some (.panic .indexOutOfRange) ∧
      copiedBytes trace = remainingBytes r rest := by
  induction fuel with
  | zero =>
    intro r cur rest buf hst _ _ _ hfuel
    have h1 := hst.2.2.1
    have h2 := sumLengths_nonneg rest (fun d hd => (hst.2.2.2.2.2.2.1 d hd).1)
    omega
  | succ fuel ih =>
    intro r cur rest buf hst hover hR0 hR hfuel
    have hrestnn := sumLengths_nonneg rest (fun d hd => (hst.2.2.2.2.2.2.1 d hd).1)
    obtain ⟨hw0, hwS, hwl, hwant, hdlen, hdst, hlen, hS2, ht2, _, hcase⟩ :=
      streaming_step r cur rest buf hst hR0 hR
    rcases hcase with ⟨hE, _, _⟩ | ⟨hE, hout, cur2, rest2, hst2, hinv, hrem⟩ |
      ⟨hE, hwl2, hnil, _, hout⟩
    · omega
    · have hfuel2 : ((Read r buf).reader.dataRunBytesLeftToReadTracker
          + sumLengths rest2).toNat ≤ fuel := by
        rw [ht2] at hinv; omega
      obtain ⟨trace, h1, h2, h3⟩ :=
        ih (Read r buf).reader cur2 rest2 (Read r buf).dst hst2 (by rw [hS2, hinv]; exact hover)
          (by rw [hdlen]; exact hR0) (by rw [hdlen]; exact hR) hfuel2
      refine ⟨Read r buf :: trace, ?_, finalOutcome_cons _ _ _ h2, ?_⟩
      · simp only [pullAll, hout, h1, Option.map_some']
      · simp only [copiedBytes, hwant, hdst, h3, hrem]
    · refine ⟨[Read r buf], ?_, ?_, ?_⟩
      · simp only [pullAll, hout]
      · simp only [finalOutcome, hout]
      · rw [hwl2] at hwant hdst
        simp only [copiedBytes, hwant, hdst, List.append_nil, remainingBytes, hnil, fileBytes]

theorem pullAll_initReader (fuel : Nat) (r : dataRunsReader) (buf : List UInt8)
    (first : DataRun) (tl : List DataRun) (hruns : r.DataRuns = first :: tl) :
    pullAll fuel r buf = pullAll fuel (initReader r buf.length first) buf := by
  obtain ⟨g1, g2, _, g4⟩ := initReader_frame r buf.length first
  have hread : Read r buf = Read (initReader r buf.length first) buf := by
    rw [Read_cons r buf first tl hruns,
      Read_cons (initReader r buf.length first) buf first tl (by rw [g1, hruns]),
      (initReader_frame (initReader r buf.length first) buf.length first).2.2.2 g2]
  cases fuel with
  | zero => rfl
  | succ n => simp only [pullAll, hread]

/-- The first pull of a fresh reader puts it at the start of the file. -/
theorem fresh_streaming (h : VolumeHandler) (first : DataRun) (tl : List DataRun) (S R : Int)
    (hpos : ∀ d ∈ first :: tl, 0 < d.Length)
    (hvol : ∀ d ∈ first :: tl, d.inVolume h.data)
    (hsum : I64 (sumLengths (first :: tl)))
    (hS : 0 ≤ S) (hS64 : I64 S) :
    Streaming (initReader (newRawFileReader h (first :: tl) S) R first) first tl ∧
    (initReader (newRawFileReader h (first :: tl) S) R first).totalFileSize
      = (if S = 0 then sumLengths (first :: tl) else S) ∧
    (initReader (newRawFileReader h (first :: tl) S) R first).totalByesRead = 0 ∧
    (initReader (newRawFileReader h (first :: tl) S) R first).dataRunBytesLeftToReadTracker
      = first.Length ∧
    remainingBytes (initReader (newRawFileReader h (first :: tl) S) R first) tl
      = fileBytes h.data (first :: tl) := by
  have hsp := sumLengths_pos first tl hpos
  have hsl : sumLengths (first :: tl) = first.Length + sumLengths tl := rfl
  have hfirst := hvol first (List.mem_cons_self _ _)
  have hfpos := hpos first (List.mem_cons_self _ _)
  have hseek : (h.Seek first.AbsoluteOffset).1 = { h with pos := first.AbsoluteOffset.toNat } := by
    unfold VolumeHandler.Seek
    rw [if_neg (by unfold DataRun.inVolume at hfirst; omega)]
  have hsize : (initReader (newRawFileReader h (first :: tl) S) R first).totalFileSize
      = if S = 0 then sumLengths (first :: tl) else S := by
    simp only [initReader, newRawFileReader, Bool.false_eq_true, if_false]
    by_cases h0 : S = 0
    · simp only [h0, if_true, addLengths_zero, wrap64_of_I64 hsum]
    · simp only [h0, if_false]
  have hShi : 0 < (if S = 0 then sumLengths (first :: tl) else S) ∧
      I64 (if S = 0 then sumLengths (first :: tl) else S) := by
    by_cases h0 : S = 0
    · simp only [h0, if_true]; exact ⟨hsp, hsum⟩
    · simp only [h0, if_false]; exact ⟨by omega, hS64⟩
  refine ⟨?_, hsize, ?_, ?_, ?_⟩
  · unfold Streaming
    rw [hsize]
    simp only [initReader, newRawFileReader, Bool.false_eq_true, if_false, hseek, List.drop_zero]
    unfold I64 DataRun.inVolume at *
    refine ⟨trivial, trivial, hfpos, le_refl _, by omega, hfirst,
      fun d hd => ⟨hpos d (List.mem_cons_of_mem _ hd), hvol d (List.mem_cons_of_mem _ hd)⟩,
      le_refl _, by omega, by omega, by omega⟩
  · simp only [initReader, newRawFileReader, Bool.false_eq_true, if_false]
  · simp only [initReader, newRawFileReader, Bool.false_eq_true, if_false]
  · simp only [remainingBytes, initReader, newRawFileReader, Bool.false_eq_true, if_false, hseek,
      fileBytes, extentBytes]

/-- The pulls of a fresh reader whose declared size the runs cover. -/
theorem fresh_pullAll (h : VolumeHandler) (first : DataRun) (tl : List DataRun) (S : Int)
    (buf : List UInt8) (fuel : Nat)
    (hpos : ∀ d ∈ first :: tl, 0 < d.Length)
    (hvol : ∀ d ∈ first :: tl, d.inVolume h.data)
    (hsum : I64 (sumLengths (first :: tl)))
    (hS : S = 0 ∨ (0 < S ∧ S ≤ sumLengths (first :: tl)))
    (hR0 : 0 < buf.length) (hR : I64 buf.length)
    (hfuel : (if S = 0 then sumLengths (first :: tl) else S).toNat ≤ fuel) :
    ∃ trace, pullAll fuel (newRawFileReader h (first :: tl) S) buf = some trace ∧
      finalOutcome trace = some (.ret 0 (some .EOF)) ∧
      copiedBytes trace = (fileBytes h.data (first :: tl)).take
        (if S = 0 then sumLengths (first :: tl) else S).toNat ∧
      0 ≤ countedBytes trace ∧
      countedBytes trace < (if S = 0 then sumLengths (first :: tl) else S) := by
  have hsl : sumLengths (first :: tl) = first.Length + sumLengths tl := rfl
  have hS0 : 0 ≤ S ∧ I64 S := by
    unfold I64 at *
    omega
  obtain ⟨hst, hsize, ht0, hleft, hrem⟩ :=
    fresh_streaming h first tl S buf.length hpos hvol hsum hS0.1 hS0.2
  have hfit : (initReader (newRawFileReader h (first :: tl) S) buf.length first).totalFileSize
      ≤ (initReader (newRawFileReader h (first :: tl) S) buf.length first).totalByesRead
        + (initReader (newRawFileReader h (first :: tl) S)
            buf.length first).dataRunBytesLeftToReadTracker + sumLengths tl := by
    rw [hsize, ht0, hleft]
    by_cases h0 : S = 0
    · simp only [h0, if_true]; omega
    · simp only [h0, if_false]; omega
  rw [pullAll_initReader fuel _ buf first tl rfl]
  obtain ⟨trace, h1, h2, h3, h4, h5⟩ := pullAll_streaming fuel _ first tl buf hst hfit hR0 hR
    (by rw [hsize, ht0, Int.sub_zero]; exact hfuel)
  rw [hsize, ht0, Int.sub_zero, hrem] at h3
  rw [hsize, ht0, Int.sub_zero] at h5
  exact ⟨trace, h1, h2, h3, h4, h5⟩

/-! ## The boot-sector parsers -/

theorem getD_drop_take_one (input : List UInt8) (i : Nat) :
    ((input.drop i).take 1).getD 0 0 = input.getD i 0 := by
  simp [List.getD_eq_getElem?_getD, List.getElem?_take, List.getElem?_drop]

theorem negInt8_of_ge (b : Nat) (h1 : 128 < b) (h2 : b < 256) :
    wrap8 (toInt8 b * -1) = 256 - (b : Int) := by
  unfold toInt8 wrap8
  omega

theorem uint8_toNat_lt (x : UInt8) : x.toNat < 256 := x.val.isLt

theorem gofor_accepts (conv : Int → Int) (input : List UInt8) (v : gofor.volumeBootRecord)
    (hacc : gofor.parseVolumeBootRecord conv input = .ret v none) :
    ∃ c : UInt8, input[0x40]? = some c ∧ 128 ≤ c.toNat ∧
      v.MftRecordSize = pow2ToInt64 conv (wrap8 (toInt8 c.toNat * -1)) := by
  unfold gofor.parseVolumeBootRecord at hacc
  by_cases h1 : input.length < 0x03 + 0x04
  · simp [h1] at hacc
  by_cases h2 : gofor.slice input 0x03 (0x03 + 0x04) ≠ magicNumber
  · simp [h1, h2] at hacc
  by_cases h3 : input.length < 0x0b + 0x02
  · rw [if_neg h1, if_neg h2, if_pos h3] at hacc
    simp at hacc
  rw [if_neg h1, if_neg h2, if_neg h3] at hacc
  cases hspc : input[0x0d]? with
  | none => simp [hspc] at hacc
  | some spc =>
    cases hc : input[0x40]? with
    | none => simp [hspc, hc] at hacc
    | some c =>
      simp only [hspc, hc] at hacc
      by_cases h4 : (c.toNat : Int) < 128
      · simp [h4] at hacc
      rw [if_neg h4] at hacc
      refine ⟨c, rfl, by omega, ?_⟩
      by_cases h5 : gofor.convertLittleEndianByteSliceToInt64
          (gofor.slice input 0x30 (0x30 + 0x08)) = 0
      · rw [if_pos h5] at hacc
        simp only [gofor.Result.ret.injEq, and_true] at hacc
        rw [← hacc]
      · rw [if_neg h5] at hacc
        cases hcpi : input[0x44]? with
        | none => simp [hcpi] at hacc
        | some cpi =>
          simp only [hcpi, gofor.Result.ret.injEq, and_true] at hacc
          rw [← hacc]

theorem littleEndian_lt (l : List UInt8) : littleEndian l < 256 ^ l.length := by
  induction l with
  | nil => simp [littleEndian]
  | cons b bs ih =>
    have hb := uint8_toNat_lt b
    simp only [littleEndian, List.length_cons, pow_succ]
    omega

theorem littleEndian_two (a b : UInt8) : littleEndian [a, b] = a.toNat + 256 * b.toNat := by
  simp [littleEndian]

theorem getElem?_eq_getD (input : List UInt8) (i : Nat) (h : i < input.length) :
    input[i]? = some (input.getD i 0) := by
  simp [List.getD_eq_getElem?_getD, List.getElem?_eq_getElem h]

theorem drop_take_two (input : List UInt8) (i : Nat) (h : i + 2 ≤ input.length) :
    (input.drop i).take 2 = [input.getD i 0, input.getD (i + 1) 0] := by
  apply List.ext_getElem?
  intro j
  rw [List.getElem?_take]
  by_cases hj : j < 2
  · rw [if_pos hj, List.getElem?_drop]
    have : j = 0 ∨ j = 1 := by omega
    rcases this with rfl | rfl
    · rw [Nat.add_zero, getElem?_eq_getD input i (by omega)]
      rfl
    · rw [getElem?_eq_getD input (i + 1) (by omega)]
      rfl
  · rw [if_neg hj]
    have : 2 ≤ j := by omega
    simp [List.getElem?_eq_none, this]

/-- What `vbr.Parse` returns on an input it accepts. -/
theorem Parse_accepts (conv : Int → Nat) (input : List UInt8)
    (hacc : (vbr.Parse conv input).2 = none) :
    512 ≤ input.length ∧
    (input.drop 0x03).take 0x04 = magicNumber ∧
    128 ≤ (input.getD 0x40 0).toNat ∧
    wrap64 (littleEndian ((input.drop 0x30).take 0x08)) ≠ 0 ∧
    (vbr.Parse conv input).1 =
      { VolumeLetter := ""
        BytesPerSector := littleEndian ((input.drop 0x0B).take 0x02)
        SectorsPerCluster := (input.getD 0x0D 0).toNat
        BytesPerCluster := ((input.getD 0x0D 0).toNat * littleEndian ((input.drop 0x0B).take 0x02))
          % 18446744073709551616
        MftOffset := wrap64 (wrap64 (littleEndian ((input.drop 0x30).take 0x08))
          * ((((input.getD 0x0D 0).toNat * littleEndian ((input.drop 0x0B).take 0x02))
              % 18446744073709551616 : Nat) : Int))
        MftRecordSize := pow2ToUint conv (wrap8 (toInt8 (input.getD 0x40 0).toNat * -1))
        ClustersPerIndexRecord := (input.getD 0x44 0).toNat } := by
  unfold vbr.Parse at hacc ⊢
  simp only [vbr.GetValue, vbr.LittleEndianBinaryToInt64, getD_drop_take_one] at hacc ⊢
  split_ifs at hacc ⊢ with h1 h2 h3 h4 h5
  refine ⟨by omega, ?_, by omega, h5, rfl⟩
  exact (not_not.mp h3).symm


theorem drop_take_congr (l l2 : List UInt8) (a n : Nat)
    (h : ∀ j, j < n → l2[a + j]? = l[a + j]?) :
    (l2.drop a).take n = (l.drop a).take n := by
  apply List.ext_getElem?
  intro j
  rw [List.getElem?_take, List.getElem?_take]
  by_cases hj : j < n
  · rw [if_pos hj, if_pos hj, List.getElem?_drop, List.getElem?_drop]
    exact h j hj
  · rw [if_neg hj, if_neg hj]

/-- What `parseVolumeBootRecord` returns on an input of at least 0x45 bytes, which
holds all the fields: no slice expression or index is out of range. -/
theorem gofor_of_length (conv : Int → Int) (input : List UInt8) (hlen : 0x45 ≤ input.length) :
    gofor.parseVolumeBootRecord conv input =
      if (input.drop 0x03).take 0x04 ≠ magicNumber then
        .ret gofor.volumeBootRecord.zero (some .vbrIsInvalid)
      else if (input.getD 0x40 0).toNat < 128 then
        .ret { gofor.volumeBootRecord.zero with
            BytesPerSector := littleEndian ((input.drop 0x0b).take 0x02)
            SectorsPerCluster := (input.getD 0x0d 0).toNat }
          (some (.clustersPerMftRecordLessThan128 (input.getD 0x40 0).toNat))
      else if wrap64 (littleEndian ((input.drop 0x30).take 0x08)) = 0 then
        .ret { gofor.volumeBootRecord.zero with
            BytesPerSector := littleEndian ((input.drop 0x0b).take 0x02)
            SectorsPerCluster := (input.getD 0x0d 0).toNat
            MftRecordSize := pow2ToInt64 conv (wrap8 (toInt8 (input.getD 0x40 0).toNat * -1))
            BytesPerCluster := wrap64 (((input.getD 0x0d 0).toNat : Int)
              * littleEndian ((input.drop 0x0b).take 0x02)) } none
      else
        .ret { VolumeLetter := ""
               BytesPerSector := littleEndian ((input.drop 0x0b).take 0x02)
               SectorsPerCluster := (input.getD 0x0d 0).toNat
               BytesPerCluster := wrap64 (((input.getD 0x0d 0).toNat : Int)
                 * littleEndian ((input.drop 0x0b).take 0x02))
               MftByteOffset := wrap64 (wrap64 (littleEndian ((input.drop 0x30).take 0x08))
                 * wrap64 (((input.getD 0x0d 0).toNat : Int)
                     * littleEndian ((input.drop 0x0b).take 0x02)))
               MftRecordSize := pow2ToInt64 conv (wrap8 (toInt8 (input.getD 0x40 0).toNat * -1))
               ClustersPerIndexRecord := (input.getD 0x44 0).toNat } none := by
  unfold gofor.parseVolumeBootRecord
  rw [if_neg (by omega), getElem?_eq_getD input 0x0d (by omega),
    getElem?_eq_getD input 0x40 (by omega), getElem?_eq_getD input 0x44 (by omega)]
  simp only [gofor.slice, gofor.convertLittleEndianByteSliceToInt64, Nat.add_sub_cancel_left]
  by_cases h1 : (input.drop 0x03).take 0x04 ≠ magicNumber
  · rw [if_pos h1, if_pos h1]
  · rw [if_neg h1, if_neg h1, if_neg (by omega)]
    by_cases h2 : (input.getD 0x40 0).toNat < 128
    · have h2i : ((input.getD 0x40 0).toNat : Int) < 128 := by omega
      rw [if_pos h2, if_pos h2i]
    · have h2i : ¬ ((input.getD 0x40 0).toNat : Int) < 128 := by omega
      rw [if_neg h2, if_neg h2i]
      by_cases h3 : wrap64 (littleEndian ((input.drop 0x30).take 0x08)) = 0
      · rw [if_pos h3, if_pos h3]
      · rw [if_neg h3, if_neg h3]
        rfl

theorem Parse_of_no_magic (outOfRange : Int → Nat) (input : List UInt8)
    (hlen : 512 ≤ input.length) (hm : (input.drop 0x03).take 0x04 ≠ magicNumber) :
    vbr.Parse outOfRange input =
      (vbr.VolumeBootRecord.zero, some vbr.ParseError.noMagicNumber) := by
  unfold vbr.Parse
  rw [if_neg (by omega), if_neg (by omega), if_pos (by simpa [vbr.GetValue] using Ne.symm hm)]

theorem Parse_of_small_record_byte (outOfRange : Int → Nat) (input : List UInt8)
    (hlen : 512 ≤ input.length) (hmagic : (input.drop 0x03).take 0x04 = magicNumber)
    (hrec : (input.getD 0x40 0).toNat < 128) :
    vbr.Parse outOfRange input =
      (vbr.VolumeBootRecord.zero,
        some (vbr.ParseError.clustersPerMftRecordLessThan128 (input.getD 0x40 0).toNat)) := by
  unfold vbr.Parse
  simp only [vbr.GetValue, getD_drop_take_one, hmagic]
  rw [if_neg (by omega), if_neg (by omega), if_neg (by simp), if_pos hrec]

theorem littleEndian_two_lt (input : List UInt8) (i : Nat) (h : i + 2 ≤ input.length) :
    littleEndian ((input.drop i).take 2) < 65536 := by
  rw [drop_take_two input i h, littleEndian_two]
  have h1 := uint8_toNat_lt (input.getD i 0)
  have h2 := uint8_toNat_lt (input.getD (i + 1) 0)
  omega

theorem pow2ToUint_63 (outOfRange : Int → Nat) :
    pow2ToUint outOfRange 63 = 9223372036854775808 := by
  unfold pow2ToUint
  rw [if_neg (by omega), if_pos (by omega)]
  rfl

theorem pow2ToInt64_63 (outOfRange : Int → Int) :
    pow2ToInt64 outOfRange 63 = wrap64 (outOfRange 63) := by
  unfold pow2ToInt64
  rw [if_neg (by omega), if_neg (by omega)]

theorem pow2_neg (uintOutOfRange : Int → Nat) (intOutOfRange : Int → Int) (e : Int)
    (he : e < 0) : pow2ToUint uintOutOfRange e = 0 ∧ pow2ToInt64 intOutOfRange e = 0 := by
  unfold pow2ToUint pow2ToInt64
  rw [if_pos he, if_pos he]
  exact ⟨rfl, rfl⟩

theorem sumLengths_append (l1 l2 : List DataRun) :
    sumLengths (l1 ++ l2) = sumLengths l1 + sumLengths l2 := by
  induction l1 with
  | nil => simp [sumLengths]
  | cons d ds ih =>
    show sumLengths (d :: (ds ++ l2)) = sumLengths (d :: ds) + sumLengths l2
    simp only [sumLengths]
    rw [ih]
    omega

theorem sumLengths_take_succ (l : List DataRun) (n : Nat) (cur : DataRun)
    (h : l[n]? = some cur) :
    sumLengths (l.take (n + 1)) = sumLengths (l.take n) + cur.Length := by
  have hn : n < l.length := by
    by_contra hcon
    rw [List.getElem?_eq_none (by omega)] at h
    simp at h
  have hcur : l[n] = cur := by
    rw [List.getElem?_eq_getElem hn] at h
    simpa using h
  rw [List.take_succ, sumLengths_append, h]
  simp [sumLengths]

theorem sumLengths_take_le (l : List DataRun) (n : Nat) (hpos : ∀ d ∈ l, 0 < d.Length) :
    sumLengths (l.take n) ≤ sumLengths l := by
  have h := sumLengths_append (l.take n) (l.drop n)
  rw [List.take_append_drop] at h
  have h2 := sumLengths_nonneg (l.drop n) (fun d hd => hpos d (List.mem_of_mem_drop hd))
  omega

theorem sumLengths_take_all (l : List DataRun) (n : Nat) (h : l.length ≤ n) :
    sumLengths (l.take n) = sumLengths l := by
  rw [List.take_of_length_le h]

/-- One pull of a reader whose counters are as `Tracking` says, over runs of
positive lengths that cover the declared size: the pull does not panic; either it
signals `io.EOF` and leaves the reader exhausted, or it returns without an error
and the counters are as `Tracking` says again. -/
theorem tracking_step (r : dataRunsReader) (buf : List UInt8) (htr : Tracking r)
    (hpos : ∀ d ∈ r.DataRuns, 0 < d.Length)
    (hS : r.totalFileSize ≤ sumLengths r.DataRuns)
    (hsum : I64 (sumLengths r.DataRuns))
    (hR : I64 buf.length) :
    (Read r buf).reader.DataRuns = r.DataRuns ∧
    (Read r buf).reader.totalFileSize = r.totalFileSize ∧
    0 ≤ (Read r buf).want ∧
    (((Read r buf).outcome = .ret 0 (some .EOF) ∧ Exhausted (Read r buf).reader) ∨
     ((∃ n, (Read r buf).outcome = .ret n none) ∧ Tracking (Read r buf).reader)) := by
  obtain ⟨hi, cur, hcur, hl0, hlc, ht0, htS, hform⟩ := htr
  have hne : r.DataRuns ≠ [] := by
    intro h
    rw [h] at hcur
    simp at hcur
  obtain ⟨first, tl, hruns⟩ := List.exists_cons_of_ne_nil hne
  have hread : Read r buf = readAfterInit r buf := by
    rw [Read_cons r buf first tl hruns, (initReader_frame r buf.length first).2.2.2 hi]
  have hsucc := sumLengths_take_succ r.DataRuns r.dataRunTracker cur hcur
  have hle := sumLengths_take_le r.DataRuns (r.dataRunTracker + 1) hpos
  have hsane : Sane r := by
    unfold Sane I64 at *
    omega
  obtain ⟨hno, hn⟩ := noOverflow_of_sane r buf.length hsane (by omega) hR
  obtain ⟨s1, s2, s3, s4, s5, s6, s7, s8, s9⟩ := readAfterInit_spec r buf hno hn
  have hwdef : wantOf r buf.length = min (buf.length : Int)
      (min r.dataRunBytesLeftToReadTracker (r.totalFileSize - r.totalByesRead)) := rfl
  rw [hread]
  refine ⟨s3, s4, by rw [s1]; exact hn, ?_⟩
  by_cases hE : r.totalFileSize = r.totalByesRead + wantOf r buf.length
  · left
    exact ⟨(s7 hE).1, exhausted_of_eof r buf hne hi hR hsane 0 (s7 hE).1⟩
  · right
    by_cases hL : (buf.length : Int) < r.dataRunBytesLeftToReadTracker
    · obtain ⟨t1, t2, t3, _⟩ := s8 hE hL
      refine ⟨⟨_, t1⟩, ?_⟩
      unfold Tracking
      rw [s5, s3, t2, t3, s6, s4]
      exact ⟨hi, cur, hcur, by omega, by omega, by omega, by omega, by omega⟩
    · have hL2 : r.dataRunBytesLeftToReadTracker ≤ buf.length := by omega
      obtain ⟨t1, t2, t3⟩ := s9 hE hL2
      have hwl : wantOf r buf.length = r.dataRunBytesLeftToReadTracker := by omega
      have hlt : r.dataRunTracker + 1 < r.DataRuns.length := by
        by_contra hcon
        have := sumLengths_take_all r.DataRuns (r.dataRunTracker + 1) (by omega)
        omega
      have hget : r.DataRuns[r.dataRunTracker + 1]? = some r.DataRuns[r.dataRunTracker + 1] :=
        List.getElem?_eq_getElem hlt
      obtain ⟨u1, u2, _⟩ := t3 _ hget
      have hnpos := hpos _ (List.getElem_mem hlt)
      refine ⟨⟨_, u1⟩, ?_⟩
      unfold Tracking
      rw [s5, s3, t1, u2, s6, s4]
      exact ⟨hi, _, hget, hnpos, le_refl _, by omega, by omega, by omega⟩

/-- One pull from a state that is reached: it does not panic, the state after it is
reached as well, and unless the pull signals `io.EOF` the counters are as `Tracking`
says. -/
theorem reached_step (runs : List DataRun) (size : Int) (r : dataRunsReader)
    (buf : List UInt8) (hne : runs ≠ [])
    (hpos : ∀ d ∈ runs, 0 < d.Length) (hsum : I64 (sumLengths runs))
    (hS0 : 0 ≤ size) (hS : size ≤ sumLengths runs)
    (hr : Reached runs size r) (hR : I64 buf.length) :
    Reached runs size (Read r buf).reader ∧
    (((Read r buf).outcome = .ret 0 (some .EOF)) ∨
     ((∃ n, (Read r buf).outcome = .ret n none) ∧ 0 ≤ (Read r buf).want ∧
      Tracking (Read r buf).reader ∧
      (Read r buf).reader.totalFileSize = (if size = 0 then sumLengths runs else size))) := by
  obtain ⟨first, tl, hruns⟩ := List.exists_cons_of_ne_nil hne
  have hsp : 0 < sumLengths runs := by
    rw [hruns]
    exact sumLengths_pos first tl (by rw [← hruns]; exact hpos)
  have hSeff : (if size = 0 then sumLengths runs else size) ≤ sumLengths runs ∧
      0 < (if size = 0 then sumLengths runs else size) := by
    by_cases h0 : size = 0
    · simp only [h0, if_true]; omega
    · simp only [h0, if_false]; omega
  obtain ⟨hdr, hcase⟩ := hr
  -- a pull from a state in the middle of the file
  have mid : ∀ st : dataRunsReader, st.DataRuns = runs →
      st.totalFileSize = (if size = 0 then sumLengths runs else size) → Tracking st →
      Reached runs size (Read st buf).reader ∧
      (((Read st buf).outcome = .ret 0 (some .EOF)) ∨
       ((∃ n, (Read st buf).outcome = .ret n none) ∧ 0 ≤ (Read st buf).want ∧
        Tracking (Read st buf).reader ∧
        (Read st buf).reader.totalFileSize
          = (if size = 0 then sumLengths runs else size))) := by
    intro st hst1 hst2 htr
    obtain ⟨k1, k2, k3, k4⟩ := tracking_step st buf htr (by rw [hst1]; exact hpos)
      (by rw [hst1, hst2]; exact hSeff.1) (by rw [hst1]; exact hsum) hR
    rcases k4 with ⟨ke, kx⟩ | ⟨kn, kt⟩
    · exact ⟨⟨by rw [k1, hst1], Or.inr ⟨by rw [k2, hst2], Or.inr kx⟩⟩, Or.inl ke⟩
    · exact ⟨⟨by rw [k1, hst1], Or.inr ⟨by rw [k2, hst2], Or.inl kt⟩⟩,
        Or.inr ⟨kn, k3, kt, by rw [k2, hst2]⟩⟩
  rcases hcase with ⟨hfresh, ht0, hsz⟩ | ⟨hsz, htr | hex⟩
  · obtain ⟨g1, g2, g3, _⟩ := initReader_frame r buf.length first
    have hread : Read r buf = Read (initReader r buf.length first) buf := by
      rw [Read_cons r buf first tl (by rw [hdr, hruns]),
        Read_cons (initReader r buf.length first) buf first tl (by rw [g1, hdr, hruns]),
        (initReader_frame (initReader r buf.length first) buf.length first).2.2.2 g2]
    have hsize : (initReader r buf.length first).totalFileSize
        = (if size = 0 then sumLengths runs else size) := by
      simp only [initReader, hfresh, Bool.false_eq_true, if_false, hsz, hdr]
      by_cases h0 : size = 0
      · simp only [h0, if_true, addLengths_zero, wrap64_of_I64 hsum]
      · simp only [h0, if_false]
    have htr : Tracking (initReader r buf.length first) := by
      unfold Tracking
      rw [hsize, g3, ht0, g1, hdr, hruns]
      simp only [initReader, hfresh, Bool.false_eq_true, if_false, List.take_zero, sumLengths,
        List.getElem?_cons_zero]
      have hfpos := hpos first (by rw [hruns]; exact List.mem_cons_self _ _)
      rw [hruns] at hSeff
      exact ⟨trivial, first, rfl, hfpos, le_refl _, le_refl _, hSeff.2, by omega⟩
    rw [hread]
    exact mid _ (by rw [g1, hdr]) hsize htr
  · exact mid r hdr hsz htr
  · obtain ⟨hkey, hex2⟩ := exhausted_pull r buf hex hR
    refine ⟨⟨?_, Or.inr ⟨?_, Or.inr hex2⟩⟩, Or.inl ?_⟩
    · rw [hkey]; exact hdr
    · rw [hkey]; exact hsz
    · rw [hkey]

theorem reached_readerAfter (runs : List DataRun) (size : Int) (hne : runs ≠ [])
    (hpos : ∀ d ∈ runs, 0 < d.Length) (hsum : I64 (sumLengths runs))
    (hS0 : 0 ≤ size) (hS : size ≤ sumLengths runs)
    (bufs : List (List UInt8)) :
    ∀ r : dataRunsReader, Reached runs size r → (∀ b ∈ bufs, I64 (b.length : Int)) →
      Reached runs size (readerAfter r bufs) := by
  induction bufs with
  | nil => intro r hr _; exact hr
  | cons b bs ih =>
    intro r hr hb
    have h1 := (reached_step runs size r b hne hpos hsum hS0 hS hr
      (hb b (List.mem_cons_self _ _))).1
    have h2 := ih (Read r b).reader h1 (fun c hc => hb c (List.mem_cons_of_mem _ hc))
    simpa only [readerAfter, List.foldl_cons] using h2

/-! ## The claims -/

/-- C1: a fresh reader over a non-empty list of extents of positive lengths that lie
inside the volume (their lengths adding up to an `int64`), with a declared size `S`
that is 0 (meaning the sum of the lengths) or has `0 < S ≤` that sum, pulled with
one buffer of `R > 0` bytes until it signals end-of-stream, does signal `io.EOF`
after at most `S` pulls, and the bytes the pulls copied into the destination, the
first `want` bytes of each pull, the last pull included, are exactly the first `S`
bytes of the concatenation of the volume ranges of the extents, in list order. -/
theorem C1_stream_reconstruction (h : VolumeHandler) (runs : List DataRun) (S : Int)
    (buf : List UInt8) (fuel : Nat)
    (hne : runs ≠ [])
    (hpos : ∀ d ∈ runs, 0 < d.Length)
    (hvol : ∀ d ∈ runs, d.inVolume h.data)
    (hsum : I64 (sumLengths runs))
    (hS : S = 0 ∨ (0 < S ∧ S ≤ sumLengths runs))
    (hR0 : 0 < buf.length) (hR : I64 buf.length)
    (hfuel : (if S = 0 then sumLengths runs else S).toNat ≤ fuel) :
    ∃ trace, pullAll fuel (newRawFileReader h runs S) buf = some trace ∧
      finalOutcome trace = some (.ret 0 (some .EOF)) ∧
      copiedBytes trace =
        (fileBytes h.data runs).take (if S = 0 then sumLengths runs else S).toNat := by
  obtain ⟨first, tl, rfl⟩ := List.exists_cons_of_ne_nil hne
  obtain ⟨trace, h1, h2, h3, _, _⟩ :=
    fresh_pullAll h first tl S buf fuel hpos hvol hsum hS hR0 hR hfuel
  exact ⟨trace, h1, h2, h3⟩

theorem C1_stream_reconstruction_witness :
    demoRuns ≠ [] ∧ (∀ d ∈ demoRuns, 0 < d.Length) ∧
    (∀ d ∈ demoRuns, d.inVolume demoHandler.data) ∧ I64 (sumLengths demoRuns) ∧
    ((0 : Int) = 0 ∨ ((0 : Int) < 0 ∧ 0 ≤ sumLengths demoRuns)) ∧
    0 < [(0 : UInt8), 0].length ∧ I64 [(0 : UInt8), 0].length ∧
    (if (0 : Int) = 0 then sumLengths demoRuns else 0).toNat ≤ 5 ∧
    ∃ trace, pullAll 5 (newRawFileReader demoHandler demoRuns 0) [0, 0] = some trace ∧
      finalOutcome trace = some (.ret 0 (some .EOF)) ∧
      copiedBytes trace =
        (fileBytes demoHandler.data demoRuns).take
          (if (0 : Int) = 0 then sumLengths demoRuns else 0).toNat :=
  ⟨by decide, by decide, by decide, by decide, by decide, by decide, by decide, by decide,
    C1_stream_reconstruction demoHandler demoRuns 0 [0, 0] 5 (by decide) (by decide) (by decide)
      (by decide) (by decide) (by decide) (by decide) (by decide)⟩

/-- C2 (what the code does instead): under the conditions of the claim the pulls do
end with `io.EOF`, but the byte counts returned by the pulls before it add up to
strictly less than the declared size `S`: the last pull returns the count 0 for
the bytes it delivered. -/
theorem C2_counted_bytes_fall_short (h : VolumeHandler) (runs : List DataRun) (S : Int)
    (buf : List UInt8) (fuel : Nat)
    (hne : runs ≠ [])
    (hpos : ∀ d ∈ runs, 0 < d.Length)
    (hvol : ∀ d ∈ runs, d.inVolume h.data)
    (hsum : I64 (sumLengths runs))
    (hS : 0 < S ∧ S ≤ sumLengths runs)
    (hR0 : 0 < buf.length) (hR : I64 buf.length)
    (hfuel : S.toNat ≤ fuel) :
    ∃ trace, pullAll fuel (newRawFileReader h runs S) buf = some trace ∧
      finalOutcome trace = some (.ret 0 (some .EOF)) ∧
      countedBytes trace < S := by
  obtain ⟨first, tl, rfl⟩ := List.exists_cons_of_ne_nil hne
  have hS0 : S ≠ 0 := by omega
  obtain ⟨trace, h1, h2, _, _, h5⟩ :=
    fresh_pullAll h first tl S buf fuel hpos hvol hsum (Or.inr hS) hR0 hR
      (by simp only [hS0, if_false]; exact hfuel)
  simp only [hS0, if_false] at h5
  exact ⟨trace, h1, h2, h5⟩

/-- C2 at a failing input: one extent of 4 bytes at offset 2, declared size 4,
pulled 4 bytes at a time. The only pull copies the 4 bytes of the file into the
destination and returns `(0, io.EOF)`; the counts of the pulls that did not signal
end-of-stream add up to 0, not to 4. -/
theorem C2_counted_bytes_fall_short_witness :
    ([⟨2, 4⟩] : List DataRun) ≠ [] ∧ (∀ d ∈ ([⟨2, 4⟩] : List DataRun), 0 < d.Length) ∧
    (∀ d ∈ ([⟨2, 4⟩] : List DataRun), d.inVolume demoHandler.data) ∧
    I64 (sumLengths [⟨2, 4⟩]) ∧
    ((0 : Int) < 4 ∧ 4 ≤ sumLengths [⟨2, 4⟩]) ∧
    0 < [(0 : UInt8), 0, 0, 0].length ∧ I64 [(0 : UInt8), 0, 0, 0].length ∧
    (4 : Int).toNat ≤ 4 ∧
    (∃ trace, pullAll 4 (newRawFileReader demoHandler [⟨2, 4⟩] 4) [0, 0, 0, 0] = some trace ∧
      finalOutcome trace = some (.ret 0 (some .EOF)) ∧
      countedBytes trace < 4) ∧
    pullAll 4 (newRawFileReader demoHandler [⟨2, 4⟩] 4) [0, 0, 0, 0] =
      some [Read (newRawFileReader demoHandler [⟨2, 4⟩] 4) [0, 0, 0, 0]] ∧
    (Read (newRawFileReader demoHandler [⟨2, 4⟩] 4) [0, 0, 0, 0]).outcome =
      .ret 0 (some .EOF) ∧
    (Read (newRawFileReader demoHandler [⟨2, 4⟩] 4) [0, 0, 0, 0]).dst = [12, 13, 14, 15] ∧
    countedBytes [Read (newRawFileReader demoHandler [⟨2, 4⟩] 4) [0, 0, 0, 0]] = 0 :=
  ⟨by decide, by decide, by decide, by decide, by decide, by decide, by decide, by decide,
    C2_counted_bytes_fall_short demoHandler [⟨2, 4⟩] 4 [0, 0, 0, 0] 4 (by decide) (by decide)
      (by decide) (by decide) (by decide) (by decide) (by decide) (by decide),
    by decide, by decide, by decide, by decide⟩

/-- C3: a pull that gets as far as reading (`want` is not negative) and after which
the bytes delivered equal the declared size returns the byte count 0 with `io.EOF`,
although the destination has just received the `want` bytes of the device read;
and a pull returns `io.EOF` only then. When nothing overflows `want` is at most the
request size, so that these bytes are the first `want` bytes of the destination and
the rest of it is untouched. -/
theorem C3_final_pull_reports_zero (r : dataRunsReader) (first : DataRun) (tl : List DataRun)
    (hruns : r.DataRuns = first :: tl) (buf : List UInt8) :
    (0 ≤ (Read r buf).want →
      (Read r buf).reader.totalByesRead = (Read r buf).reader.totalFileSize →
      (Read r buf).outcome = .ret 0 (some .EOF)) ∧
    (∀ n, (Read r buf).outcome = .ret n (some .EOF) →
      n = 0 ∧ 0 ≤ (Read r buf).want ∧
      (Read r buf).reader.totalByesRead = (Read r buf).reader.totalFileSize) ∧
    (0 ≤ (Read r buf).want →
      (Read r buf).dst = copyBytes buf
        (readBuffer (initReader r buf.length first).Handler (Read r buf).want.toNat)) ∧
    (NoOverflow (initReader r buf.length first) buf.length → 0 ≤ (Read r buf).want →
      (Read r buf).want ≤ buf.length ∧
      (Read r buf).dst.take (Read r buf).want.toNat =
        readBuffer (initReader r buf.length first).Handler (Read r buf).want.toNat ∧
      (Read r buf).dst.drop (Read r buf).want.toNat = buf.drop (Read r buf).want.toNat) := by
  rw [Read_cons r buf first tl hruns]
  obtain ⟨h1, h2, h3⟩ := readAfterInit_raw (initReader r buf.length first) buf
  refine ⟨fun hw => (h3 hw).2.1, fun n hn => ?_, fun hw => (h3 hw).1, fun hno hw => ?_⟩
  · have hw : 0 ≤ (readAfterInit (initReader r buf.length first) buf).want := by
      by_contra hneg
      have := (h2 (by omega)).1
      rw [this] at hn
      simp at hn
    exact ⟨((h3 hw).2.2 n hn).1, hw, ((h3 hw).2.2 n hn).2⟩
  · have hle : (readAfterInit (initReader r buf.length first) buf).want ≤ buf.length := by
      rw [h1, want_eq _ _ hno]
      unfold wantOf
      omega
    have hlen := readBuffer_length (initReader r buf.length first).Handler
      (readAfterInit (initReader r buf.length first) buf).want.toNat
    have hc := copyBytes_take buf _ (by rw [hlen]; omega)
    rw [hlen] at hc
    rw [(h3 hw).1]
    exact ⟨hle, hc.1, hc.2.1⟩

theorem C3_final_pull_reports_zero_witness :
    (newRawFileReader demoHandler [⟨2, 4⟩] 4).DataRuns = [⟨2, 4⟩] ∧
    (Read (newRawFileReader demoHandler [⟨2, 4⟩] 4) [0, 0, 0, 0, 0]).outcome
      = .ret 0 (some .EOF) ∧
    (Read (newRawFileReader demoHandler [⟨2, 4⟩] 4) [0, 0, 0, 0, 0]).want = 4 ∧
    (Read (newRawFileReader demoHandler [⟨2, 4⟩] 4) [0, 0, 0, 0, 0]).dst = [12, 13, 14, 15, 0] :=
  ⟨rfl,
    (C3_final_pull_reports_zero (newRawFileReader demoHandler [⟨2, 4⟩] 4) ⟨2, 4⟩ [] rfl
      [0, 0, 0, 0, 0]).1 (by decide) (by decide),
    by decide, by decide⟩

/-- C4: when none of the `int64` operations of lines 67-79 overflows, the number of
bytes a pull asks of the device and copies out is
`min(R, bytes left in the current run, declared size - bytes delivered)`, for the
reader as the initialization of lines 37-64 leaves it. It is at most `R` and at
most what is left of the run; when it is negative the allocation panics and nothing
is read; otherwise the bytes come from one device read at the current position and
fill the first `want` bytes of the destination, and, the position being where the
counter of the current run says, all of them lie inside that run. -/
theorem C4_pull_size_is_min (r : dataRunsReader) (first : DataRun) (tl : List DataRun)
    (hruns : r.DataRuns = first :: tl) (buf : List UInt8)
    (hno : NoOverflow (initReader r buf.length first) buf.length) :
    (Read r buf).want =
      min (buf.length : Int)
        (min (initReader r buf.length first).dataRunBytesLeftToReadTracker
          ((initReader r buf.length first).totalFileSize
            - (initReader r buf.length first).totalByesRead)) ∧
    (Read r buf).want ≤ buf.length ∧
    (Read r buf).want ≤ (initReader r buf.length first).dataRunBytesLeftToReadTracker ∧
    ((Read r buf).want < 0 →
      (Read r buf).outcome = .panic .makesliceLenOutOfRange ∧ (Read r buf).dst = buf) ∧
    (0 ≤ (Read r buf).want →
      (Read r buf).dst.take (Read r buf).want.toNat =
        readBuffer (initReader r buf.length first).Handler (Read r buf).want.toNat ∧
      (Read r buf).dst.drop (Read r buf).want.toNat = buf.drop (Read r buf).want.toNat ∧
      ((initReader r buf.length first).Handler.pos + (Read r buf).want.toNat
          ≤ (initReader r buf.length first).Handler.data.length →
        (Read r buf).dst.take (Read r buf).want.toNat =
          ((initReader r buf.length first).Handler.data.drop
            (initReader r buf.length first).Handler.pos).take (Read r buf).want.toNat)) ∧
    (∀ cur : DataRun,
      (initReader r buf.length first).DataRuns[(initReader r buf.length first).dataRunTracker]?
        = some cur →
      ((initReader r buf.length first).Handler.pos : Int)
          + (initReader r buf.length first).dataRunBytesLeftToReadTracker
        = cur.AbsoluteOffset + cur.Length →
      (initReader r buf.length first).dataRunBytesLeftToReadTracker ≤ cur.Length →
      cur.AbsoluteOffset ≤ (initReader r buf.length first).Handler.pos ∧
      ((initReader r buf.length first).Handler.pos : Int) + (Read r buf).want
        ≤ cur.AbsoluteOffset + cur.Length) := by
  rw [Read_cons r buf first tl hruns]
  obtain ⟨h1, h2, h3⟩ := readAfterInit_raw (initReader r buf.length first) buf
  have hw : (readAfterInit (initReader r buf.length first) buf).want
      = wantOf (initReader r buf.length first) buf.length := by
    rw [h1, want_eq _ _ hno]
  have hle : (readAfterInit (initReader r buf.length first) buf).want ≤ buf.length := by
    rw [hw]; unfold wantOf; omega
  have hle2 : (readAfterInit (initReader r buf.length first) buf).want
      ≤ (initReader r buf.length first).dataRunBytesLeftToReadTracker := by
    rw [hw]; unfold wantOf; omega
  refine ⟨hw, hle, hle2, h2, fun hn => ?_, fun cur _ hpos hlen => ⟨by omega, by omega⟩⟩
  have hlen := readBuffer_length (initReader r buf.length first).Handler
    (readAfterInit (initReader r buf.length first) buf).want.toNat
  have hc := copyBytes_take buf _ (by rw [hlen]; omega)
  rw [hlen] at hc
  rw [(h3 hn).1]
  refine ⟨hc.1, hc.2.1, fun hin => ?_⟩
  rw [hc.1]
  exact readBuffer_inVolume _ _ hin

theorem C4_pull_size_is_min_witness :
    (newRawFileReader demoHandler demoRuns 0).DataRuns = ⟨6, 3⟩ :: [⟨1, 2⟩] ∧
    NoOverflow (initReader (newRawFileReader demoHandler demoRuns 0)
      ([0, 0, 0, 0] : List UInt8).length ⟨6, 3⟩) ([0, 0, 0, 0] : List UInt8).length ∧
    (Read (newRawFileReader demoHandler demoRuns 0) [0, 0, 0, 0]).want =
      min (([0, 0, 0, 0] : List UInt8).length : Int)
        (min (initReader (newRawFileReader demoHandler demoRuns 0)
            ([0, 0, 0, 0] : List UInt8).length ⟨6, 3⟩).dataRunBytesLeftToReadTracker
          ((initReader (newRawFileReader demoHandler demoRuns 0)
              ([0, 0, 0, 0] : List UInt8).length ⟨6, 3⟩).totalFileSize
            - (initReader (newRawFileReader demoHandler demoRuns 0)
              ([0, 0, 0, 0] : List UInt8).length ⟨6, 3⟩).totalByesRead)) ∧
    (Read (newRawFileReader demoHandler demoRuns 0) [0, 0, 0, 0]).want = 3 :=
  ⟨rfl, by decide,
    (C4_pull_size_is_min (newRawFileReader demoHandler demoRuns 0) ⟨6, 3⟩ [⟨1, 2⟩] rfl
      [0, 0, 0, 0] (by decide)).1,
    by decide⟩

/-- C5 (as amended): once a pull of a reader with sane counters has returned `io.EOF`,
every later pull, whatever the request sizes, returns `(0, io.EOF)`, asks no byte of
the device and leaves the destination, the bytes-delivered counter, the extent
index, the declared size, the tracked cursor and the device position as they were.
The bytes-remaining-in-extent counter is not kept: each such pull lowers it by
`min(R, counter)`. -/
theorem C5_exhausted_is_terminal (r : dataRunsReader) (first : DataRun) (tl : List DataRun)
    (hruns : r.DataRuns = first :: tl) (buf : List UInt8) (hR : I64 buf.length)
    (hs : Sane (initReader r buf.length first)) (n : Int)
    (hEOF : (Read r buf).outcome = .ret n (some .EOF))
    (later : List (List UInt8)) (hlater : ∀ b ∈ later, I64 (b.length : Int))
    (b : List UInt8) (hb : I64 b.length) :
    Read (readerAfter (Read r buf).reader later) b =
      { reader := { readerAfter (Read r buf).reader later with
          dataRunBytesLeftToReadTracker :=
            (readerAfter (Read r buf).reader later).dataRunBytesLeftToReadTracker
              - min (b.length : Int)
                  (readerAfter (Read r buf).reader later).dataRunBytesLeftToReadTracker }
        dst := b, want := 0, outcome := .ret 0 (some .EOF) } ∧
    (readerAfter (Read r buf).reader later).totalByesRead = (Read r buf).reader.totalByesRead ∧
    (readerAfter (Read r buf).reader later).dataRunTracker = (Read r buf).reader.dataRunTracker ∧
    (readerAfter (Read r buf).reader later).totalFileSize = (Read r buf).reader.totalFileSize ∧
    (readerAfter (Read r buf).reader later).Handler = (Read r buf).reader.Handler ∧
    (readerAfter (Read r buf).reader later).DataRuns = r.DataRuns ∧
    0 ≤ (readerAfter (Read r buf).reader later).dataRunBytesLeftToReadTracker ∧
    (readerAfter (Read r buf).reader later).dataRunBytesLeftToReadTracker
      ≤ (Read r buf).reader.dataRunBytesLeftToReadTracker := by
  obtain ⟨g1, g2, _, _⟩ := initReader_frame r buf.length first
  have hread := Read_cons r buf first tl hruns
  rw [hread] at hEOF
  have hex : Exhausted (Read r buf).reader := by
    rw [hread]
    exact exhausted_of_eof _ buf (by rw [g1, hruns]; simp) g2 hR hs n hEOF
  obtain ⟨e1, e2, e3, e4, e5, e6, e7⟩ := exhausted_readerAfter later _ hex hlater
  refine ⟨(exhausted_pull _ b e1 hb).1, e2, e3, e4, e5, ?_, e1.2.2.2.2.1, e7⟩
  rw [e6, (Read_frame r buf).1]

theorem C5_exhausted_is_terminal_witness :
    (newRawFileReader demoHandler [⟨0, 8⟩] 3).DataRuns = [⟨0, 8⟩] ∧
    I64 ([0, 0, 0] : List UInt8).length ∧
    Sane (initReader (newRawFileReader demoHandler [⟨0, 8⟩] 3)
      ([0, 0, 0] : List UInt8).length ⟨0, 8⟩) ∧
    (Read (newRawFileReader demoHandler [⟨0, 8⟩] 3) [0, 0, 0]).outcome = .ret 0 (some .EOF) ∧
    (Read (readerAfter (Read (newRawFileReader demoHandler [⟨0, 8⟩] 3) [0, 0, 0]).reader
        [[0, 0], [0]]) [7, 7]).outcome = .ret 0 (some .EOF) ∧
    (Read (readerAfter (Read (newRawFileReader demoHandler [⟨0, 8⟩] 3) [0, 0, 0]).reader
        [[0, 0], [0]]) [7, 7]).dst = [7, 7] ∧
    (readerAfter (Read (newRawFileReader demoHandler [⟨0, 8⟩] 3) [0, 0, 0]).reader
        [[0, 0], [0]]).Handler =
      (Read (newRawFileReader demoHandler [⟨0, 8⟩] 3) [0, 0, 0]).reader.Handler :=
  ⟨rfl, by decide, by decide, by decide,
    congrArg ReadResult.outcome
      (C5_exhausted_is_terminal (newRawFileReader demoHandler [⟨0, 8⟩] 3) ⟨0, 8⟩ [] rfl
        [0, 0, 0] (by decide) (by decide) 0 (by decide) [[0, 0], [0]] (by decide)
        [7, 7] (by decide)).1,
    congrArg ReadResult.dst
      (C5_exhausted_is_terminal (newRawFileReader demoHandler [⟨0, 8⟩] 3) ⟨0, 8⟩ [] rfl
        [0, 0, 0] (by decide) (by decide) 0 (by decide) [[0, 0], [0]] (by decide)
        [7, 7] (by decide)).1,
    (C5_exhausted_is_terminal (newRawFileReader demoHandler [⟨0, 8⟩] 3) ⟨0, 8⟩ [] rfl
        [0, 0, 0] (by decide) (by decide) 0 (by decide) [[0, 0], [0]] (by decide)
        [7, 7] (by decide)).2.2.2.2.1⟩

/-- C5 fails as stated: after the pull that returned `io.EOF` (declared size 5 in one
extent of 8 bytes, pulled 3 bytes at a time) a further pull changes the
bytes-remaining-in-extent counter, from 2 to 0. -/
theorem C5_counterexample :
    (Read (Read (newRawFileReader ⟨[1, 2, 3, 4, 5, 6, 7, 8], 0, 0⟩ [⟨0, 8⟩] 5) [0, 0, 0]).reader
        [0, 0, 0]).outcome = .ret 0 (some .EOF) ∧
    (Read (Read (newRawFileReader ⟨[1, 2, 3, 4, 5, 6, 7, 8], 0, 0⟩ [⟨0, 8⟩] 5) [0, 0, 0]).reader
        [0, 0, 0]).reader.dataRunBytesLeftToReadTracker = 2 ∧
    (Read (Read (Read (newRawFileReader ⟨[1, 2, 3, 4, 5, 6, 7, 8], 0, 0⟩ [⟨0, 8⟩] 5)
        [0, 0, 0]).reader [0, 0, 0]).reader [0, 0, 0]).reader.dataRunBytesLeftToReadTracker = 0 := by
  decide

/-- C6 (what the code does instead): a fresh reader over a non-empty list of extents
of positive lengths inside the volume, with a declared size greater than the sum of
the lengths, pulled until a pull returns an error or panics, never returns an
error: the pulls copy all the bytes of the extents, and the pull that takes the
last byte of the last extent panics with an index out of range. -/
theorem C6_size_beyond_extents_panics (h : VolumeHandler) (runs : List DataRun) (S : Int)
    (buf : List UInt8) (fuel : Nat)
    (hne : runs ≠ [])
    (hpos : ∀ d ∈ runs, 0 < d.Length)
    (hvol : ∀ d ∈ runs, d.inVolume h.data)
    (hS : sumLengths runs < S) (hS64 : I64 S)
    (hR0 : 0 < buf.length) (hR : I64 buf.length)
    (hfuel : (sumLengths runs).toNat ≤ fuel) :
    ∃ trace, pullAll fuel (newRawFileReader h runs S) buf = some trace ∧
      finalOutcome trace = some (.panic .indexOutOfRange) ∧
      copiedBytes trace = fileBytes h.data runs := by
  obtain ⟨first, tl, rfl⟩ := List.exists_cons_of_ne_nil hne
  have hsp := sumLengths_pos first tl hpos
  have hsl : sumLengths (first :: tl) = first.Length + sumLengths tl := rfl
  have hsum : I64 (sumLengths (first :: tl)) := by
    unfold I64 at *
    omega
  have hSne : S ≠ 0 := by omega
  obtain ⟨hst, hsize, ht0, hleft, hrem⟩ :=
    fresh_streaming h first tl S buf.length hpos hvol hsum (by omega) hS64
  rw [if_neg hSne] at hsize
  rw [pullAll_initReader fuel _ buf first tl rfl]
  obtain ⟨trace, h1, h2, h3⟩ := pullAll_overdeclared fuel _ first tl buf hst
    (by rw [hsize, ht0, hleft]; omega) hR0 hR (by rw [hleft]; omega)
  rw [hrem] at h3
  exact ⟨trace, h1, h2, h3⟩

/-- C6 at a failing input: one extent of 4 bytes at offset 2, declared size 10,
pulled 4 bytes at a time. The first pull copies the 4 bytes, moves the extent index
to 1, past the end of the list, and panics. -/
theorem C6_size_beyond_extents_panics_witness :
    ([⟨2, 4⟩] : List DataRun) ≠ [] ∧ (∀ d ∈ ([⟨2, 4⟩] : List DataRun), 0 < d.Length) ∧
    (∀ d ∈ ([⟨2, 4⟩] : List DataRun), d.inVolume demoHandler.data) ∧
    sumLengths [⟨2, 4⟩] < 10 ∧ I64 10 ∧
    0 < [(0 : UInt8), 0, 0, 0].length ∧ I64 [(0 : UInt8), 0, 0, 0].length ∧
    (sumLengths [⟨2, 4⟩]).toNat ≤ 4 ∧
    (∃ trace, pullAll 4 (newRawFileReader demoHandler [⟨2, 4⟩] 10) [0, 0, 0, 0] = some trace ∧
      finalOutcome trace = some (.panic .indexOutOfRange) ∧
      copiedBytes trace = fileBytes demoHandler.data [⟨2, 4⟩]) ∧
    (Read (newRawFileReader demoHandler [⟨2, 4⟩] 10) [0, 0, 0, 0]).outcome
      = .panic .indexOutOfRange ∧
    (Read (newRawFileReader demoHandler [⟨2, 4⟩] 10) [0, 0, 0, 0]).dst = [12, 13, 14, 15] ∧
    (Read (newRawFileReader demoHandler [⟨2, 4⟩] 10) [0, 0, 0, 0]).reader.dataRunTracker = 1 :=
  ⟨by decide, by decide, by decide, by decide, by decide, by decide, by decide, by decide,
    C6_size_beyond_extents_panics demoHandler [⟨2, 4⟩] 10 [0, 0, 0, 0] 4 (by decide) (by decide)
      (by decide) (by decide) (by decide) (by decide) (by decide) (by decide),
    by decide, by decide, by decide⟩

/-- C7: on a reader whose extent list is empty every pull, the first and every
later one, whatever the request size, returns the byte count 0 with
`io.ErrUnexpectedEOF` (which is not `io.EOF`); the reader with all its fields, the
handler with its device position and its tracked cursor, and the destination
slice are as they were, and no byte is asked of the device. -/
theorem C7_empty_extent_list_fails (r : dataRunsReader) (hempty : r.DataRuns = [])
    (earlier : List (List UInt8)) (buf : List UInt8) :
    Read (readerAfter r earlier) buf =
      { reader := r, dst := buf, want := 0, outcome := .ret 0 (some .ErrUnexpectedEOF) } ∧
    GoError.ErrUnexpectedEOF ≠ GoError.EOF := by
  have key : readerAfter r earlier = r := by
    induction earlier with
    | nil => rfl
    | cons b bs ih =>
      simp only [readerAfter, List.foldl_cons] at ih ⊢
      rw [Read_nil r b hempty]
      exact ih
  rw [key, Read_nil r buf hempty]
  exact ⟨rfl, by decide⟩

theorem C7_empty_extent_list_fails_witness :
    Read (readerAfter (newRawFileReader ⟨[1, 2, 3], 1, 7⟩ [] 3) [[0, 0], [0]]) [9, 9] =
      { reader := newRawFileReader ⟨[1, 2, 3], 1, 7⟩ [] 3, dst := [9, 9], want := 0,
        outcome := .ret 0 (some .ErrUnexpectedEOF) } ∧
    GoError.ErrUnexpectedEOF ≠ GoError.EOF :=
  C7_empty_extent_list_fails (newRawFileReader ⟨[1, 2, 3], 1, 7⟩ [] 3) rfl [[0, 0], [0]] [9, 9]

/-- C8: on a reader that is not initialized and has at least one extent, the first
pull sets a declared size of 0 to the sum of all extent lengths (the `int64` sum,
which is the exact sum when that fits the type) and leaves a declared size other
than 0 as it is; no later pull changes the declared size. -/
theorem C8_declared_size_set_once (r : dataRunsReader) (first : DataRun) (tl : List DataRun)
    (hruns : r.DataRuns = first :: tl) (hfresh : r.initialized = false)
    (buf : List UInt8) (later : List (List UInt8)) :
    (r.totalFileSize = 0 →
      (Read r buf).reader.totalFileSize = wrap64 (sumLengths r.DataRuns)) ∧
    (r.totalFileSize = 0 → I64 (sumLengths r.DataRuns) →
      (Read r buf).reader.totalFileSize = sumLengths r.DataRuns) ∧
    (r.totalFileSize ≠ 0 → (Read r buf).reader.totalFileSize = r.totalFileSize) ∧
    (readerAfter (Read r buf).reader later).totalFileSize = (Read r buf).reader.totalFileSize := by
  have hread := Read_cons r buf first tl hruns
  obtain ⟨h1, h2, h3⟩ := readAfterInit_frame (initReader r buf.length first) buf
  obtain ⟨g1, g2, _, _⟩ := initReader_frame r buf.length first
  have hinit : (Read r buf).reader.initialized = true := by rw [hread, h2, g2]
  have hsize : (Read r buf).reader.totalFileSize =
      if r.totalFileSize = 0 then addLengths r.totalFileSize r.DataRuns else r.totalFileSize := by
    rw [hread, h3]
    unfold initReader
    simp [hfresh]
  refine ⟨fun h0 => ?_, fun h0 hI => ?_, fun hn => ?_, (readerAfter_frame later _ hinit).2.1⟩
  · rw [hsize, if_pos h0, h0, addLengths_zero]
  · rw [hsize, if_pos h0, h0, addLengths_zero, wrap64_of_I64 hI]
  · rw [hsize, if_neg hn]

theorem C8_declared_size_set_once_witness :
    (newRawFileReader demoHandler demoRuns 0).DataRuns = ⟨6, 3⟩ :: [⟨1, 2⟩] ∧
    (newRawFileReader demoHandler demoRuns 0).initialized = false ∧
    (Read (newRawFileReader demoHandler demoRuns 0) [0, 0]).reader.totalFileSize
      = sumLengths (newRawFileReader demoHandler demoRuns 0).DataRuns ∧
    sumLengths (newRawFileReader demoHandler demoRuns 0).DataRuns = 5 ∧
    (readerAfter (Read (newRawFileReader demoHandler demoRuns 0) [0, 0]).reader
        [[0, 0], [0, 0, 0]]).totalFileSize
      = (Read (newRawFileReader demoHandler demoRuns 0) [0, 0]).reader.totalFileSize :=
  ⟨rfl, rfl,
    (C8_declared_size_set_once (newRawFileReader demoHandler demoRuns 0) ⟨6, 3⟩ [⟨1, 2⟩] rfl rfl
      [0, 0] [[0, 0], [0, 0, 0]]).2.1 rfl (by decide),
    by decide,
    (C8_declared_size_set_once (newRawFileReader demoHandler demoRuns 0) ⟨6, 3⟩ [⟨1, 2⟩] rfl rfl
      [0, 0] [[0, 0], [0, 0, 0]]).2.2.2⟩

/-- C9 (as amended): an input of at least 512 bytes that `vbr.Parse` accepts has a
byte `b` at offset 0x40 with `128 ≤ b ≤ 255`, and when `193 ≤ b` the record size
returned is `2^(256 - b)`; an input that `parseVolumeBootRecord` accepts and whose
byte `b` at offset 0x40 has `194 ≤ b` gets the record size `2^(256 - b)` as well.
(For these `b` the power fits the type of the field, `uint` and `int64`.) -/
theorem C9_record_size_power_of_two (uintOutOfRange : Int → Nat) (intOutOfRange : Int → Int)
    (input : List UInt8) :
    ((vbr.Parse uintOutOfRange input).2 = none →
      512 ≤ input.length ∧
      128 ≤ (input.getD 0x40 0).toNat ∧ (input.getD 0x40 0).toNat ≤ 255 ∧
      (193 ≤ (input.getD 0x40 0).toNat →
        (vbr.Parse uintOutOfRange input).1.MftRecordSize
          = 2 ^ (256 - (input.getD 0x40 0).toNat))) ∧
    (∀ v, gofor.parseVolumeBootRecord intOutOfRange input = .ret v none →
      128 ≤ (input.getD 0x40 0).toNat ∧ (input.getD 0x40 0).toNat ≤ 255 ∧
      (194 ≤ (input.getD 0x40 0).toNat →
        v.MftRecordSize = 2 ^ (256 - (input.getD 0x40 0).toNat))) := by
  have hb := uint8_toNat_lt (input.getD 0x40 0)
  constructor
  · intro hacc
    unfold vbr.Parse at hacc ⊢
    simp only [vbr.GetValue, getD_drop_take_one] at hacc ⊢
    split_ifs at hacc ⊢ with h1 h2 h3 h4 h5
    refine ⟨by omega, by omega, by omega, fun h193 => ?_⟩
    simp only []
    rw [negInt8_of_ge _ (by omega) hb]
    unfold pow2ToUint
    rw [if_neg (by omega), if_pos (by omega)]
    congr 1
    omega
  · intro v hacc
    obtain ⟨c, hc, hc128, hv⟩ := gofor_accepts intOutOfRange input v hacc
    have hcb : input.getD 0x40 0 = c := by
      simp [List.getD_eq_getElem?_getD, hc]
    rw [hcb] at hb ⊢
    refine ⟨hc128, by omega, fun h194 => ?_⟩
    rw [hv, negInt8_of_ge _ (by omega) hb]
    unfold pow2ToInt64
    rw [if_neg (by omega), if_pos (by omega)]
    have : ((256 : Int) - (c.toNat : Int)).toNat = 256 - c.toNat := by omega
    rw [this]

set_option maxRecDepth 100000 in
theorem C9_record_size_power_of_two_witness :
    (vbr.Parse (fun _ => 0) (demoSector 0xF6)).2 = none ∧
    193 ≤ ((demoSector 0xF6).getD 0x40 0).toNat ∧
    (vbr.Parse (fun _ => 0) (demoSector 0xF6)).1.MftRecordSize
      = 2 ^ (256 - ((demoSector 0xF6).getD 0x40 0).toNat) ∧
    (vbr.Parse (fun _ => 0) (demoSector 0xF6)).1.MftRecordSize = 1024 :=
  ⟨by decide, by decide,
    ((C9_record_size_power_of_two (fun _ => 0) (fun _ => 0) (demoSector 0xF6)).1
      (by decide)).2.2.2 (by decide),
    by decide⟩

set_option maxRecDepth 100000 in
/-- C9 fails as stated: the boot sector `demoSector 0x80` has 512 bytes and is
accepted by both parsers, its byte at offset 0x40 is `b = 128`, and the record
size either parser returns is 0, not `2^(256 - 128)`. (The negation of the `int8`
value -128 is -128 again, and `2^-128` truncates to 0; no conversion is out of
range here, so the result does not depend on the implementation.) -/
theorem C9_counterexample :
    (demoSector 0x80).length = 512 ∧
    ((demoSector 0x80).getD 0x40 0).toNat = 128 ∧
    (vbr.Parse (fun _ => 0) (demoSector 0x80)).2 = none ∧
    (vbr.Parse (fun _ => 0) (demoSector 0x80)).1.MftRecordSize = 0 ∧
    (∃ v, gofor.parseVolumeBootRecord (fun _ => 0) (demoSector 0x80) = .ret v none ∧
      v.MftRecordSize = 0) ∧
    (0 : Nat) ≠ 2 ^ (256 - 128) := by
  refine ⟨by decide, by decide, by decide, by decide, ⟨_, rfl, by decide⟩, by decide⟩

/-- C10: on an input of at least 512 bytes with the bytes "NTFS" at offsets
0x03..0x06, a byte of at least 128 at offset 0x40, and 8 bytes at offsets
0x30..0x37 whose little-endian value is 0, `vbr.Parse` fails: it returns the
zero-value `VolumeBootRecord` and a non-nil error, the one for the missing MFT
location. -/
theorem C10_zero_mft_cluster_offset_rejected (outOfRange : Int → Nat) (input : List UInt8)
    (hlen : 512 ≤ input.length)
    (hmagic : (input.drop 0x03).take 0x04 = magicNumber)
    (hrec : 128 ≤ (input.getD 0x40 0).toNat)
    (hmft : littleEndian ((input.drop 0x30).take 0x08) = 0) :
    vbr.Parse outOfRange input =
      (vbr.VolumeBootRecord.zero, some vbr.ParseError.failedToGetMftOffsetClusters) := by
  unfold vbr.Parse
  simp only [vbr.GetValue, vbr.LittleEndianBinaryToInt64, getD_drop_take_one, hmagic, hmft]
  rw [if_neg (by omega), if_neg (by omega), if_neg (by simp), if_neg (by omega)]
  have : wrap64 ((0 : Nat) : Int) = 0 := by decide
  rw [if_pos this]

set_option maxRecDepth 100000 in
theorem C10_zero_mft_cluster_offset_rejected_witness :
    512 ≤ ((demoSector 0xF6).set 0x30 0).length ∧
    (((demoSector 0xF6).set 0x30 0).drop 0x03).take 0x04 = magicNumber ∧
    128 ≤ (((demoSector 0xF6).set 0x30 0).getD 0x40 0).toNat ∧
    littleEndian ((((demoSector 0xF6).set 0x30 0).drop 0x30).take 0x08) = 0 ∧
    vbr.Parse (fun _ => 0) ((demoSector 0xF6).set 0x30 0) =
      (vbr.VolumeBootRecord.zero, some vbr.ParseError.failedToGetMftOffsetClusters) :=
  ⟨by decide, by decide, by decide, by decide,
    C10_zero_mft_cluster_offset_rejected (fun _ => 0) ((demoSector 0xF6).set 0x30 0)
      (by decide) (by decide) (by decide) (by decide)⟩

/-- C11 (what the code does instead): on an input long enough to hold the fields
up to offset 0x40, with the bytes "NTFS" at offsets 0x03..0x06, a byte of at least
128 at offset 0x40 and 8 bytes at offsets 0x30..0x37 whose little-endian value is
0, `parseVolumeBootRecord` returns with a nil error: `errors.Wrap` of the nil `err`
is nil. What it returns with it is a record with the MFT byte offset and the
clusters per index record left at 0. -/
theorem C11_gofor_zero_mft_offset_no_error (outOfRange : Int → Int) (input : List UInt8)
    (hlen : 0x41 ≤ input.length)
    (hmagic : (input.drop 0x03).take 0x04 = magicNumber)
    (hrec : 128 ≤ (input.getD 0x40 0).toNat)
    (hmft : littleEndian ((input.drop 0x30).take 0x08) = 0) :
    ∃ v, gofor.parseVolumeBootRecord outOfRange input = .ret v none ∧
      v.MftByteOffset = 0 ∧ v.ClustersPerIndexRecord = 0 ∧
      v.BytesPerSector = littleEndian ((input.drop 0x0b).take 0x02) ∧
      v.SectorsPerCluster = (input.getD 0x0d 0).toNat := by
  unfold gofor.parseVolumeBootRecord
  rw [if_neg (by omega), getElem?_eq_getD input 0x0d (by omega),
    getElem?_eq_getD input 0x40 (by omega)]
  simp only [gofor.slice, gofor.convertLittleEndianByteSliceToInt64, Nat.add_sub_cancel_left,
    hmagic, hmft]
  have h2i : ¬ ((input.getD 0x40 0).toNat : Int) < 128 := by omega
  have h0 : wrap64 ((0 : Nat) : Int) = 0 := by decide
  rw [if_neg (by simp), if_neg (by omega), if_neg h2i, if_pos h0]
  exact ⟨_, rfl, rfl, rfl, rfl, rfl⟩

set_option maxRecDepth 100000 in
/-- C11 at a failing input: the boot sector `demoSector 0xF6` with the byte at offset
0x30 set to 0, so that the MFT cluster offset is 0. `parseVolumeBootRecord` returns
a nil error. -/
theorem C11_gofor_zero_mft_offset_no_error_witness :
    0x41 ≤ ((demoSector 0xF6).set 0x30 0).length ∧
    (((demoSector 0xF6).set 0x30 0).drop 0x03).take 0x04 = magicNumber ∧
    128 ≤ (((demoSector 0xF6).set 0x30 0).getD 0x40 0).toNat ∧
    littleEndian ((((demoSector 0xF6).set 0x30 0).drop 0x30).take 0x08) = 0 ∧
    (∃ v, gofor.parseVolumeBootRecord (fun _ => 0) ((demoSector 0xF6).set 0x30 0) = .ret v none ∧
      v.MftByteOffset = 0 ∧ v.ClustersPerIndexRecord = 0 ∧
      v.BytesPerSector
        = littleEndian ((((demoSector 0xF6).set 0x30 0).drop 0x0b).take 0x02) ∧
      v.SectorsPerCluster = (((demoSector 0xF6).set 0x30 0).getD 0x0d 0).toNat) ∧
    gofor.parseVolumeBootRecord (fun _ => 0) ((demoSector 0xF6).set 0x30 0) =
      .ret { VolumeLetter := "", BytesPerSector := 512, SectorsPerCluster := 8,
             BytesPerCluster := 4096, MftByteOffset := 0, MftRecordSize := 1024,
             ClustersPerIndexRecord := 0 } none :=
  ⟨by decide, by decide, by decide, by decide,
    C11_gofor_zero_mft_offset_no_error (fun _ => 0) ((demoSector 0xF6).set 0x30 0)
      (by decide) (by decide) (by decide) (by decide),
    by decide⟩

/-- C12 (as amended): on an input that `vbr.Parse` accepts, the `MftOffset` returned
is the `int64` product of the cluster offset, the 8 bytes at offsets 0x30..0x37
read as a two's complement integer, and the `BytesPerCluster` returned; it equals
the product of the little-endian value of these bytes and `BytesPerCluster` when
that product is below `2^63`. -/
theorem C12_mft_offset_is_product (outOfRange : Int → Nat) (input : List UInt8)
    (hacc : (vbr.Parse outOfRange input).2 = none) :
    (vbr.Parse outOfRange input).1.MftOffset =
      wrap64 (wrap64 (littleEndian ((input.drop 0x30).take 0x08))
        * (vbr.Parse outOfRange input).1.BytesPerCluster) ∧
    (littleEndian ((input.drop 0x30).take 0x08) * (vbr.Parse outOfRange input).1.BytesPerCluster
        < 9223372036854775808 →
      (vbr.Parse outOfRange input).1.MftOffset =
        littleEndian ((input.drop 0x30).take 0x08)
          * (vbr.Parse outOfRange input).1.BytesPerCluster) := by
  obtain ⟨_, _, _, _, hv⟩ := Parse_accepts outOfRange input hacc
  rw [hv]
  simp only []
  refine ⟨trivial, fun hfit => ?_⟩
  generalize littleEndian ((input.drop 0x30).take 0x08) = le at hfit ⊢
  generalize ((input.getD 0x0D 0).toNat * littleEndian ((input.drop 0x0B).take 0x02))
    % 18446744073709551616 = bpc at hfit ⊢
  rcases Nat.eq_zero_or_pos bpc with h0 | hpos
  · subst h0
    simp only [Nat.cast_zero, Int.mul_zero, Nat.mul_zero]
    decide
  · have hle : le ≤ le * bpc := Nat.le_mul_of_pos_right le hpos
    have h1 : wrap64 (le : Int) = le := wrap64_of_I64 (by unfold I64; omega)
    rw [h1]
    have h2 : ((le : Int) * (bpc : Int)) = ((le * bpc : Nat) : Int) := by push_cast; rfl
    rw [h2]
    exact wrap64_of_I64 (by unfold I64; omega)

set_option maxRecDepth 100000 in
theorem C12_mft_offset_is_product_witness :
    (vbr.Parse (fun _ => 0) (demoSector 0xF6)).2 = none ∧
    littleEndian (((demoSector 0xF6).drop 0x30).take 0x08) = 4 ∧
    (vbr.Parse (fun _ => 0) (demoSector 0xF6)).1.BytesPerCluster = 4096 ∧
    (vbr.Parse (fun _ => 0) (demoSector 0xF6)).1.MftOffset = 16384 ∧
    (vbr.Parse (fun _ => 0) (demoSector 0xF6)).1.MftOffset =
      littleEndian (((demoSector 0xF6).drop 0x30).take 0x08)
        * (vbr.Parse (fun _ => 0) (demoSector 0xF6)).1.BytesPerCluster :=
  ⟨by decide, by decide, by decide, by decide,
    (C12_mft_offset_is_product (fun _ => 0) (demoSector 0xF6) (by decide)).2 (by decide)⟩

set_option maxRecDepth 100000 in
/-- C12 fails as stated: the boot sector `demoSector 0xF6` with the bytes at offsets
0x30 and 0x37 set to 0 and 0x40 has the cluster offset `2^62` and 4096 bytes per
cluster; `vbr.Parse` accepts it and returns the `MftOffset` 0, the `int64` product,
not `2^62 x 4096`. -/
theorem C12_counterexample :
    (vbr.Parse (fun _ => 0) (((demoSector 0xF6).set 0x30 0).set 0x37 0x40)).2 = none ∧
    littleEndian (((((demoSector 0xF6).set 0x30 0).set 0x37 0x40).drop 0x30).take 0x08)
      = 4611686018427387904 ∧
    (vbr.Parse (fun _ => 0) (((demoSector 0xF6).set 0x30 0).set 0x37 0x40)).1.BytesPerCluster
      = 4096 ∧
    (vbr.Parse (fun _ => 0) (((demoSector 0xF6).set 0x30 0).set 0x37 0x40)).1.MftOffset = 0 ∧
    (0 : Int) ≠ 4611686018427387904 * 4096 := by
  decide

/-- C13: on an input that `vbr.Parse` accepts, the `BytesPerCluster` returned is the
product of the `SectorsPerCluster` and the `BytesPerSector` returned, as natural
numbers: the product is below `2^24` and does not wrap. -/
theorem C13_bytes_per_cluster_exact (outOfRange : Int → Nat) (input : List UInt8)
    (hacc : (vbr.Parse outOfRange input).2 = none) :
    (vbr.Parse outOfRange input).1.BytesPerCluster =
      (vbr.Parse outOfRange input).1.SectorsPerCluster
        * (vbr.Parse outOfRange input).1.BytesPerSector ∧
    (vbr.Parse outOfRange input).1.SectorsPerCluster
        * (vbr.Parse outOfRange input).1.BytesPerSector < 2 ^ 24 := by
  obtain ⟨hlen, _, _, _, hv⟩ := Parse_accepts outOfRange input hacc
  rw [hv]
  simp only []
  have hspc := uint8_toNat_lt (input.getD 0x0D 0)
  have hbps := littleEndian_two_lt input 0x0B (by omega)
  have hprod : (input.getD 0x0D 0).toNat * littleEndian ((input.drop 0x0B).take 0x02)
      ≤ 255 * 65535 := Nat.mul_le_mul (by omega) (by omega)
  constructor
  · exact Nat.mod_eq_of_lt (by omega)
  · exact lt_of_le_of_lt hprod (by norm_num)

set_option maxRecDepth 100000 in
theorem C13_bytes_per_cluster_exact_witness :
    (vbr.Parse (fun _ => 0) (demoSector 0xF6)).2 = none ∧
    (vbr.Parse (fun _ => 0) (demoSector 0xF6)).1.BytesPerSector = 512 ∧
    (vbr.Parse (fun _ => 0) (demoSector 0xF6)).1.SectorsPerCluster = 8 ∧
    (vbr.Parse (fun _ => 0) (demoSector 0xF6)).1.BytesPerCluster = 4096 ∧
    (vbr.Parse (fun _ => 0) (demoSector 0xF6)).1.BytesPerCluster =
      (vbr.Parse (fun _ => 0) (demoSector 0xF6)).1.SectorsPerCluster
        * (vbr.Parse (fun _ => 0) (demoSector 0xF6)).1.BytesPerSector :=
  ⟨by decide, by decide, by decide, by decide,
    (C13_bytes_per_cluster_exact (fun _ => 0) (demoSector 0xF6) (by decide)).1⟩

/-- C14: `vbr.Parse` fails, with a non-nil error and the zero-value
`VolumeBootRecord`, on the empty input, on every other input shorter than 512
bytes, and on every input of at least 512 bytes whose 4 bytes at offset 0x03 are not
"NTFS". -/
theorem C14_short_or_foreign_input_rejected (outOfRange : Int → Nat) (input : List UInt8) :
    (input.length = 0 →
      vbr.Parse outOfRange input =
        (vbr.VolumeBootRecord.zero, some vbr.ParseError.receivedNilBytes)) ∧
    (0 < input.length → input.length < 512 →
      vbr.Parse outOfRange input =
        (vbr.VolumeBootRecord.zero, some vbr.ParseError.receivedLessThan512Bytes)) ∧
    (512 ≤ input.length → (input.drop 0x03).take 0x04 ≠ magicNumber →
      vbr.Parse outOfRange input =
        (vbr.VolumeBootRecord.zero, some vbr.ParseError.noMagicNumber)) ∧
    ((input.length < 512 ∨ (input.drop 0x03).take 0x04 ≠ magicNumber) →
      (vbr.Parse outOfRange input).1 = vbr.VolumeBootRecord.zero ∧
      (vbr.Parse outOfRange input).2 ≠ none) := by
  have p1 : input.length = 0 → vbr.Parse outOfRange input =
      (vbr.VolumeBootRecord.zero, some vbr.ParseError.receivedNilBytes) := by
    intro h
    unfold vbr.Parse
    rw [if_pos h]
  have p2 : 0 < input.length → input.length < 512 → vbr.Parse outOfRange input =
      (vbr.VolumeBootRecord.zero, some vbr.ParseError.receivedLessThan512Bytes) := by
    intro h0 h
    unfold vbr.Parse
    rw [if_neg (by omega), if_pos h]
  have p3 := Parse_of_no_magic outOfRange input
  refine ⟨p1, p2, p3, fun h => ?_⟩
  by_cases h0 : input.length = 0
  · rw [p1 h0]; simp
  by_cases h512 : input.length < 512
  · rw [p2 (by omega) h512]; simp
  rcases h with h | h
  · omega
  · rw [p3 (by omega) h]; simp

/-- C15: on an input of at least 512 bytes with the bytes "NTFS" at offset 0x03 and
a byte below 128 at offset 0x40, whatever the other bytes, `vbr.Parse` fails: it
returns the zero-value `VolumeBootRecord`, whose record size is 0, and the error
for this byte. `parseVolumeBootRecord` returns its error for the byte as well, with
the record size left at 0. -/
theorem C15_small_record_size_byte_rejected (uintOutOfRange : Int → Nat)
    (intOutOfRange : Int → Int) (input : List UInt8)
    (hlen : 512 ≤ input.length)
    (hmagic : (input.drop 0x03).take 0x04 = magicNumber)
    (hrec : (input.getD 0x40 0).toNat < 128) :
    vbr.Parse uintOutOfRange input =
      (vbr.VolumeBootRecord.zero,
        some (vbr.ParseError.clustersPerMftRecordLessThan128 (input.getD 0x40 0).toNat)) ∧
    (vbr.Parse uintOutOfRange input).1.MftRecordSize = 0 ∧
    (∃ v, gofor.parseVolumeBootRecord intOutOfRange input =
        .ret v (some (.clustersPerMftRecordLessThan128 (input.getD 0x40 0).toNat)) ∧
      v.MftRecordSize = 0) := by
  have hp := Parse_of_small_record_byte uintOutOfRange input hlen hmagic hrec
  refine ⟨hp, by rw [hp]; rfl, ?_⟩
  rw [gofor_of_length intOutOfRange input (by omega), if_neg (by simp [hmagic]), if_pos hrec]
  exact ⟨_, rfl, rfl⟩

set_option maxRecDepth 100000 in
theorem C15_small_record_size_byte_rejected_witness :
    512 ≤ (demoSector 0x01).length ∧
    ((demoSector 0x01).drop 0x03).take 0x04 = magicNumber ∧
    ((demoSector 0x01).getD 0x40 0).toNat < 128 ∧
    vbr.Parse (fun _ => 0) (demoSector 0x01) =
      (vbr.VolumeBootRecord.zero,
        some (vbr.ParseError.clustersPerMftRecordLessThan128
          ((demoSector 0x01).getD 0x40 0).toNat)) :=
  ⟨by decide, by decide, by decide,
    (C15_small_record_size_byte_rejected (fun _ => 0) (fun _ => 0) (demoSector 0x01)
      (by decide) (by decide) (by decide)).1⟩

/-- C16: on an input that `vbr.Parse` accepts, `BytesPerSector` is the byte at offset
0x0B plus 256 times the byte at offset 0x0C, `SectorsPerCluster` is the byte at
offset 0x0D and `ClustersPerIndexRecord` the byte at offset 0x44; and every input of
at least 512 bytes that has the same bytes at the offsets of the six documented
fields gets the same result, whatever its other bytes and its length. -/
theorem C16_fields_from_fixed_offsets (outOfRange : Int → Nat) (input : List UInt8)
    (hacc : (vbr.Parse outOfRange input).2 = none) :
    (vbr.Parse outOfRange input).1.BytesPerSector =
      (input.getD 0x0B 0).toNat + 256 * (input.getD 0x0C 0).toNat ∧
    (vbr.Parse outOfRange input).1.SectorsPerCluster = (input.getD 0x0D 0).toNat ∧
    (vbr.Parse outOfRange input).1.ClustersPerIndexRecord = (input.getD 0x44 0).toNat ∧
    (∀ input2 : List UInt8, 512 ≤ input2.length →
      (∀ i ∈ documentedOffsets, input2.getD i 0 = input.getD i 0) →
      vbr.Parse outOfRange input2 = vbr.Parse outOfRange input) := by
  obtain ⟨hlen, _, _, _, hv⟩ := Parse_accepts outOfRange input hacc
  refine ⟨?_, by rw [hv], by rw [hv], fun input2 hlen2 hsame => ?_⟩
  · rw [hv]
    simp only []
    rw [drop_take_two input 0x0B (by omega), littleEndian_two]
  · have hget : ∀ i ∈ documentedOffsets, input2[i]? = input[i]? := by
      intro i hi
      have hi512 : i < 512 := by
        simp only [documentedOffsets, List.mem_cons, List.mem_singleton, List.not_mem_nil,
          or_false] at hi
        omega
      rw [getElem?_eq_getD input2 i (by omega), getElem?_eq_getD input i (by omega),
        hsame i hi]
    have e4 : (input2.drop 0x03).take 0x04 = (input.drop 0x03).take 0x04 := by
      apply drop_take_congr
      intro j hj
      apply hget
      have : j = 0 ∨ j = 1 ∨ j = 2 ∨ j = 3 := by omega
      rcases this with rfl | rfl | rfl | rfl <;> decide
    have e2 : (input2.drop 0x0B).take 0x02 = (input.drop 0x0B).take 0x02 := by
      apply drop_take_congr
      intro j hj
      apply hget
      have : j = 0 ∨ j = 1 := by omega
      rcases this with rfl | rfl <;> decide
    have e8 : (input2.drop 0x30).take 0x08 = (input.drop 0x30).take 0x08 := by
      apply drop_take_congr
      intro j hj
      apply hget
      have : j = 0 ∨ j = 1 ∨ j = 2 ∨ j = 3 ∨ j = 4 ∨ j = 5 ∨ j = 6 ∨ j = 7 := by omega
      rcases this with rfl | rfl | rfl | rfl | rfl | rfl | rfl | rfl <;> decide
    have d1 : input2.getD 0x0D 0 = input.getD 0x0D 0 := hsame _ (by decide)
    have d2 : input2.getD 0x40 0 = input.getD 0x40 0 := hsame _ (by decide)
    have d3 : input2.getD 0x44 0 = input.getD 0x44 0 := hsame _ (by decide)
    have n1 : ¬ input.length = 0 := by omega
    have n2 : ¬ input.length < 512 := by omega
    have n3 : ¬ input2.length = 0 := by omega
    have n4 : ¬ input2.length < 512 := by omega
    unfold vbr.Parse
    simp only [vbr.GetValue, getD_drop_take_one, e4, e2, e8, d1, d2, d3, n1, n2, n3, n4,
      if_false]

set_option maxRecDepth 100000 in
theorem C16_fields_from_fixed_offsets_witness :
    (vbr.Parse (fun _ => 0) (demoSector 0xF6)).2 = none ∧
    (vbr.Parse (fun _ => 0) (demoSector 0xF6)).1.BytesPerSector =
      ((demoSector 0xF6).getD 0x0B 0).toNat + 256 * ((demoSector 0xF6).getD 0x0C 0).toNat ∧
    (vbr.Parse (fun _ => 0) (demoSector 0xF6)).1.BytesPerSector = 512 :=
  ⟨by decide, (C16_fields_from_fixed_offsets (fun _ => 0) (demoSector 0xF6) (by decide)).1,
    by decide⟩

/-- C17: take a pull on which nothing overflows and which gets as far as reading
`want` bytes, the reader being as the initialization of lines 37-64 leaves it.
When the request covers what is left of the current run, the bytes delivered stay
below the declared size and there is a run after the current one, at an offset that
is not negative, then after the pull the extent index is one more, the bytes left
are the length of the new run, the device position is its offset and the tracked
cursor is its offset minus `want`. When the request is less than what is left of
the current run, the extent index is as before and the handler is as the device
read left it: no seek after the initialization, and on a reader that is initialized
already no seek in the whole pull. -/
theorem C17_extent_advance (r : dataRunsReader) (first : DataRun) (tl : List DataRun)
    (hruns : r.DataRuns = first :: tl) (buf : List UInt8)
    (hno : NoOverflow (initReader r buf.length first) buf.length)
    (hwant : 0 ≤ (Read r buf).want) :
    (∀ run : DataRun,
      (initReader r buf.length first).dataRunBytesLeftToReadTracker ≤ buf.length →
      (Read r buf).reader.totalByesRead < (Read r buf).reader.totalFileSize →
      r.DataRuns[(initReader r buf.length first).dataRunTracker + 1]? = some run →
      0 ≤ run.AbsoluteOffset → I64 run.AbsoluteOffset →
      (Read r buf).reader.dataRunTracker = (initReader r buf.length first).dataRunTracker + 1 ∧
      (Read r buf).reader.dataRunBytesLeftToReadTracker = run.Length ∧
      ((Read r buf).reader.Handler.pos : Int) = run.AbsoluteOffset ∧
      (Read r buf).reader.Handler.lastOffset = run.AbsoluteOffset - (Read r buf).want ∧
      ∃ n, (Read r buf).outcome = .ret n none) ∧
    ((buf.length : Int) < (initReader r buf.length first).dataRunBytesLeftToReadTracker →
      (Read r buf).reader.dataRunTracker = (initReader r buf.length first).dataRunTracker ∧
      (Read r buf).reader.Handler =
        afterDeviceRead (initReader r buf.length first).Handler (Read r buf).want) ∧
    (r.initialized = true → (buf.length : Int) < r.dataRunBytesLeftToReadTracker →
      (Read r buf).reader.dataRunTracker = r.dataRunTracker ∧
      (Read r buf).reader.Handler = afterDeviceRead r.Handler (Read r buf).want) := by
  obtain ⟨g1, _, _, g4⟩ := initReader_frame r buf.length first
  rw [Read_cons r buf first tl hruns] at hwant ⊢
  have hw : (readAfterInit (initReader r buf.length first) buf).want
      = wantOf (initReader r buf.length first) buf.length := by
    rw [(readAfterInit_raw _ buf).1, want_eq _ _ hno]
  rw [hw] at hwant
  obtain ⟨s1, s2, s3, s4, s5, s6, s7, s8, s9⟩ := readAfterInit_spec _ buf hno hwant
  rw [hw]
  have second : (buf.length : Int)
        < (initReader r buf.length first).dataRunBytesLeftToReadTracker →
      (readAfterInit (initReader r buf.length first) buf).reader.dataRunTracker
        = (initReader r buf.length first).dataRunTracker ∧
      (readAfterInit (initReader r buf.length first) buf).reader.Handler =
        afterDeviceRead (initReader r buf.length first).Handler
          (wantOf (initReader r buf.length first) buf.length) := by
    intro hless
    by_cases hE : (initReader r buf.length first).totalFileSize =
        (initReader r buf.length first).totalByesRead
          + wantOf (initReader r buf.length first) buf.length
    · exact ⟨(s7 hE).2.1, (s7 hE).2.2.2⟩
    · exact ⟨(s8 hE hless).2.1, (s8 hE hless).2.2.2⟩
  refine ⟨?_, second, fun hinit hless => ?_⟩
  · intro run hcover hbelow hnext hoff hoff64
    rw [s6, s4] at hbelow
    have hE : (initReader r buf.length first).totalFileSize ≠
        (initReader r buf.length first).totalByesRead
          + wantOf (initReader r buf.length first) buf.length := by omega
    obtain ⟨t1, _, t3⟩ := s9 hE hcover
    rw [← g1] at hnext
    obtain ⟨u1, u2, u3⟩ := t3 run hnext
    have hseek : (afterDeviceRead (initReader r buf.length first).Handler
        (wantOf (initReader r buf.length first) buf.length)).Seek run.AbsoluteOffset
        = ({ afterDeviceRead (initReader r buf.length first).Handler
              (wantOf (initReader r buf.length first) buf.length) with
              pos := run.AbsoluteOffset.toNat }, run.AbsoluteOffset) := by
      unfold VolumeHandler.Seek
      rw [if_neg (by omega)]
    rw [hseek] at u3
    have hwlt : wantOf (initReader r buf.length first) buf.length < 9223372036854775808 := by
      have h4 := hno.2.2.2
      unfold wantOf I64 at *
      omega
    refine ⟨t1, u2, ?_, ?_, ⟨_, u1⟩⟩
    · rw [u3]
      simp only []
      omega
    · rw [u3]
      simp only []
      exact wrap64_of_I64 (by unfold I64 at *; omega)
  · rw [g4 hinit] at second ⊢
    exact second hless

/-- C17 at an example: 3 bytes at offset 6, then 2 bytes at offset 1, pulled with a
buffer of 4 bytes. The first pull takes the 3 bytes of the first run and moves on to
the second: index 1, 2 bytes left, device position 1, tracked cursor 1 - 3. -/
theorem C17_extent_advance_witness :
    (newRawFileReader demoHandler demoRuns 0).DataRuns = ⟨6, 3⟩ :: [⟨1, 2⟩] ∧
    NoOverflow (initReader (newRawFileReader demoHandler demoRuns 0)
      ([0, 0, 0, 0] : List UInt8).length ⟨6, 3⟩) ([0, 0, 0, 0] : List UInt8).length ∧
    0 ≤ (Read (newRawFileReader demoHandler demoRuns 0) [0, 0, 0, 0]).want ∧
    (Read (newRawFileReader demoHandler demoRuns 0) [0, 0, 0, 0]).reader.dataRunTracker
      = (initReader (newRawFileReader demoHandler demoRuns 0)
          ([0, 0, 0, 0] : List UInt8).length ⟨6, 3⟩).dataRunTracker + 1 ∧
    (Read (newRawFileReader demoHandler demoRuns 0)
      [0, 0, 0, 0]).reader.dataRunBytesLeftToReadTracker = (⟨1, 2⟩ : DataRun).Length ∧
    ((Read (newRawFileReader demoHandler demoRuns 0) [0, 0, 0, 0]).reader.Handler.pos : Int)
      = (⟨1, 2⟩ : DataRun).AbsoluteOffset ∧
    (Read (newRawFileReader demoHandler demoRuns 0) [0, 0, 0, 0]).reader.Handler.lastOffset
      = (⟨1, 2⟩ : DataRun).AbsoluteOffset
        - (Read (newRawFileReader demoHandler demoRuns 0) [0, 0, 0, 0]).want ∧
    (Read (newRawFileReader demoHandler demoRuns 0) [0, 0, 0, 0]).reader.Handler.lastOffset
      = -2 :=
  ⟨rfl, by decide, by decide,
    ((C17_extent_advance (newRawFileReader demoHandler demoRuns 0) ⟨6, 3⟩ [⟨1, 2⟩] rfl
      [0, 0, 0, 0] (by decide) (by decide)).1 ⟨1, 2⟩ (by decide) (by decide) (by decide)
      (by decide) (by decide)).1,
    ((C17_extent_advance (newRawFileReader demoHandler demoRuns 0) ⟨6, 3⟩ [⟨1, 2⟩] rfl
      [0, 0, 0, 0] (by decide) (by decide)).1 ⟨1, 2⟩ (by decide) (by decide) (by decide)
      (by decide) (by decide)).2.1,
    ((C17_extent_advance (newRawFileReader demoHandler demoRuns 0) ⟨6, 3⟩ [⟨1, 2⟩] rfl
      [0, 0, 0, 0] (by decide) (by decide)).1 ⟨1, 2⟩ (by decide) (by decide) (by decide)
      (by decide) (by decide)).2.2.1,
    ((C17_extent_advance (newRawFileReader demoHandler demoRuns 0) ⟨6, 3⟩ [⟨1, 2⟩] rfl
      [0, 0, 0, 0] (by decide) (by decide)).1 ⟨1, 2⟩ (by decide) (by decide) (by decide)
      (by decide) (by decide)).2.2.2.1,
    by decide⟩

/-- C18 (what the code does instead): on the first pull of a reader that is not
initialized, the seek of line 45 moves the device position to the offset of the
first run (when that is not negative) and its result is dropped, so the tracked
cursor keeps the value that earlier reads on the shared handle left; lines 46-47
then set the tracked cursor to that value minus `R`, and line 82 advances it by
`want`. So after a first pull that reads `want` bytes without finishing the first
run, the tracked cursor is the value it had before the pull, minus `R`, plus `want`
(in `int64` arithmetic, and exactly so when the subtraction does not overflow), and
not the offset of the first run minus `R` plus `want`, which is what taking the
cursor from the result of the seek, as lines 99-101 do, would give. -/
theorem C18_initial_cursor (r : dataRunsReader) (first : DataRun) (tl : List DataRun)
    (hruns : r.DataRuns = first :: tl) (hfresh : r.initialized = false) (buf : List UInt8)
    (hno : NoOverflow (initReader r buf.length first) buf.length)
    (hwant : 0 ≤ (Read r buf).want)
    (hless : (buf.length : Int) < first.Length) :
    (0 ≤ first.AbsoluteOffset →
      ((initReader r buf.length first).Handler.pos : Int) = first.AbsoluteOffset) ∧
    (initReader r buf.length first).Handler.lastOffset
      = wrap64 (r.Handler.lastOffset - buf.length) ∧
    (Read r buf).reader.Handler.lastOffset
      = wrap64 (wrap64 (r.Handler.lastOffset - buf.length) + (Read r buf).want) ∧
    (I64 r.Handler.lastOffset → I64 (r.Handler.lastOffset - buf.length) →
      (Read r buf).reader.Handler.lastOffset
        = r.Handler.lastOffset - buf.length + (Read r buf).want) := by
  have hleft : (initReader r buf.length first).dataRunBytesLeftToReadTracker = first.Length := by
    simp only [initReader, hfresh, Bool.false_eq_true, if_false]
  have hcur : (initReader r buf.length first).Handler.lastOffset
      = wrap64 (r.Handler.lastOffset - buf.length) := by
    simp only [initReader, hfresh, Bool.false_eq_true, if_false, VolumeHandler.Seek]
    split_ifs <;> rfl
  have hpos : 0 ≤ first.AbsoluteOffset →
      ((initReader r buf.length first).Handler.pos : Int) = first.AbsoluteOffset := by
    intro h0
    simp only [initReader, hfresh, Bool.false_eq_true, if_false, VolumeHandler.Seek]
    rw [if_neg (by omega)]
    simp only []
    omega
  rw [Read_cons r buf first tl hruns] at hwant ⊢
  have hw : (readAfterInit (initReader r buf.length first) buf).want
      = wantOf (initReader r buf.length first) buf.length := by
    rw [(readAfterInit_raw _ buf).1, want_eq _ _ hno]
  rw [hw] at hwant
  obtain ⟨s1, s2, s3, s4, s5, s6, s7, s8, s9⟩ := readAfterInit_spec _ buf hno hwant
  have hwR : wantOf (initReader r buf.length first) buf.length ≤ buf.length := by
    unfold wantOf; omega
  have hlast : (readAfterInit (initReader r buf.length first) buf).reader.Handler.lastOffset
      = wrap64 (wrap64 (r.Handler.lastOffset - buf.length)
          + wantOf (initReader r buf.length first) buf.length) := by
    rw [← hleft] at hless
    by_cases hE : (initReader r buf.length first).totalFileSize =
        (initReader r buf.length first).totalByesRead
          + wantOf (initReader r buf.length first) buf.length
    · rw [(s7 hE).2.2.2]
      simp only [afterDeviceRead, hcur]
    · rw [(s8 hE hless).2.2.2]
      simp only [afterDeviceRead, hcur]
  rw [hw]
  refine ⟨hpos, hcur, hlast, fun h1 h2 => ?_⟩
  rw [hlast, wrap64_of_I64 h2]
  exact wrap64_of_I64 (by unfold I64 at *; omega)

/-- C18 at a failing input: on a handle whose tracked cursor is 512, a fresh reader
over 3 bytes at offset 6 and 2 bytes at offset 1 is pulled with a buffer of 2 bytes.
The pull returns 2 bytes and leaves 1 byte of the first run, with the device at
6 + 2; the tracked cursor is 512 - 2 + 2 = 512 after it, not 6 - 2 + 2 = 6, and on
a handle whose tracked cursor is 0 it is 0. -/
theorem C18_initial_cursor_witness :
    (newRawFileReader demoHandler demoRuns 0).DataRuns = ⟨6, 3⟩ :: [⟨1, 2⟩] ∧
    (newRawFileReader demoHandler demoRuns 0).initialized = false ∧
    NoOverflow (initReader (newRawFileReader demoHandler demoRuns 0)
      ([0, 0] : List UInt8).length ⟨6, 3⟩) ([0, 0] : List UInt8).length ∧
    0 ≤ (Read (newRawFileReader demoHandler demoRuns 0) [0, 0]).want ∧
    (([0, 0] : List UInt8).length : Int) < (⟨6, 3⟩ : DataRun).Length ∧
    (Read (newRawFileReader demoHandler demoRuns 0) [0, 0]).reader.Handler.lastOffset
      = (newRawFileReader demoHandler demoRuns 0).Handler.lastOffset
        - ([0, 0] : List UInt8).length
        + (Read (newRawFileReader demoHandler demoRuns 0) [0, 0]).want ∧
    (Read (newRawFileReader demoHandler demoRuns 0) [0, 0]).outcome = .ret 2 none ∧
    (Read (newRawFileReader demoHandler demoRuns 0) [0, 0]).want = 2 ∧
    (Read (newRawFileReader demoHandler demoRuns 0) [0, 0]).reader.dataRunTracker = 0 ∧
    (Read (newRawFileReader demoHandler demoRuns 0)
      [0, 0]).reader.dataRunBytesLeftToReadTracker = 1 ∧
    (Read (newRawFileReader demoHandler demoRuns 0) [0, 0]).reader.Handler.pos = 6 + 2 ∧
    demoHandler.lastOffset = 512 ∧
    (Read (newRawFileReader demoHandler demoRuns 0) [0, 0]).reader.Handler.lastOffset = 512 ∧
    (512 : Int) ≠ 6 - 2 + 2 ∧
    (Read (newRawFileReader { demoHandler with lastOffset := 0 } demoRuns 0)
      [0, 0]).reader.Handler.lastOffset = 0 :=
  ⟨rfl, rfl, by decide, by decide, by decide,
    (C18_initial_cursor (newRawFileReader demoHandler demoRuns 0) ⟨6, 3⟩ [⟨1, 2⟩] rfl rfl
      [0, 0] (by decide) (by decide) (by decide)).2.2.2 (by decide) (by decide),
    by decide, by decide, by decide, by decide, by decide, by decide, by decide, by decide,
    by decide⟩

/-- C19: take a reader made by `newRawFileReader` over a non-empty list of extents of
positive lengths (adding up to an `int64`) with a declared size `S`,
`0 ≤ S ≤` the sum of the lengths, and pull it any number of times with buffers of
any sizes. No pull panics, neither on the allocation nor on the index, and every
pull either signals `io.EOF` or returns without an error. After a pull that did
not signal `io.EOF`: the extent index is below the number of extents and points at
an extent `cur`; `0 <` the bytes left `≤` the length of `cur`; `0 ≤` the bytes
delivered `<` the declared size (which is `S`, or the sum of the lengths when `S`
is 0); and the bytes delivered are the lengths of the extents before `cur` plus the
length of `cur` minus the bytes left. -/
theorem C19_reader_invariant (h : VolumeHandler) (runs : List DataRun) (S : Int)
    (hne : runs ≠ []) (hpos : ∀ d ∈ runs, 0 < d.Length) (hsum : I64 (sumLengths runs))
    (hS0 : 0 ≤ S) (hS : S ≤ sumLengths runs)
    (earlier : List (List UInt8)) (hearlier : ∀ b ∈ earlier, I64 (b.length : Int))
    (buf : List UInt8) (hbuf : I64 buf.length) :
    (∀ p, (Read (readerAfter (newRawFileReader h runs S) earlier) buf).outcome ≠ .panic p) ∧
    ((Read (readerAfter (newRawFileReader h runs S) earlier) buf).outcome
        = .ret 0 (some .EOF) ∨
      ∃ n, (Read (readerAfter (newRawFileReader h runs S) earlier) buf).outcome
        = .ret n none) ∧
    (∀ n, (Read (readerAfter (newRawFileReader h runs S) earlier) buf).outcome = .ret n none →
      0 ≤ (Read (readerAfter (newRawFileReader h runs S) earlier) buf).want ∧
      (Read (readerAfter (newRawFileReader h runs S) earlier) buf).reader.dataRunTracker
        < runs.length ∧
      (Read (readerAfter (newRawFileReader h runs S) earlier) buf).reader.totalFileSize
        = (if S = 0 then sumLengths runs else S) ∧
      ∃ cur, runs[(Read (readerAfter (newRawFileReader h runs S) earlier)
            buf).reader.dataRunTracker]? = some cur ∧
        0 < (Read (readerAfter (newRawFileReader h runs S) earlier)
            buf).reader.dataRunBytesLeftToReadTracker ∧
        (Read (readerAfter (newRawFileReader h runs S) earlier)
            buf).reader.dataRunBytesLeftToReadTracker ≤ cur.Length ∧
        0 ≤ (Read (readerAfter (newRawFileReader h runs S) earlier) buf).reader.totalByesRead ∧
        (Read (readerAfter (newRawFileReader h runs S) earlier) buf).reader.totalByesRead
          < (Read (readerAfter (newRawFileReader h runs S) earlier) buf).reader.totalFileSize ∧
        (Read (readerAfter (newRawFileReader h runs S) earlier) buf).reader.totalByesRead
          = sumLengths (runs.take (Read (readerAfter (newRawFileReader h runs S) earlier)
              buf).reader.dataRunTracker)
            + (cur.Length - (Read (readerAfter (newRawFileReader h runs S) earlier)
              buf).reader.dataRunBytesLeftToReadTracker)) := by
  have h0 : Reached runs S (newRawFileReader h runs S) :=
    ⟨rfl, Or.inl ⟨rfl, rfl, rfl⟩⟩
  have h1 := reached_readerAfter runs S hne hpos hsum hS0 hS earlier _ h0 hearlier
  obtain ⟨h2, h3⟩ := reached_step runs S _ buf hne hpos hsum hS0 hS h1 hbuf
  have hdr : (Read (readerAfter (newRawFileReader h runs S) earlier) buf).reader.DataRuns
      = runs := h2.1
  refine ⟨fun p hp => ?_, ?_, fun n hn => ?_⟩
  · rcases h3 with he | ⟨⟨n, hn⟩, _⟩
    · rw [he] at hp; simp at hp
    · rw [hn] at hp; simp at hp
  · rcases h3 with he | ⟨hn, _⟩
    · exact Or.inl he
    · exact Or.inr hn
  · rcases h3 with he | ⟨_, hw, htr, hsz⟩
    · rw [he] at hn; simp at hn
    · obtain ⟨_, cur, hcur, k1, k2, k3, k4, k5⟩ := htr
      rw [hdr] at hcur k5
      have hlt : (Read (readerAfter (newRawFileReader h runs S) earlier)
          buf).reader.dataRunTracker < runs.length := by
        by_contra hcon
        rw [List.getElem?_eq_none (by omega)] at hcur
        simp at hcur
      exact ⟨hw, hlt, hsz, cur, hcur, k1, k2, k3, k4, k5⟩

/-- C19 at an example: 3 bytes at offset 6, then 2 bytes at offset 1, declared size 0,
pulled twice with a buffer of 2 bytes. The second pull returns the last byte of the
first extent and moves on: extent index 1, 2 bytes left, 3 bytes delivered. -/
theorem C19_reader_invariant_witness :
    demoRuns ≠ [] ∧ (∀ d ∈ demoRuns, 0 < d.Length) ∧ I64 (sumLengths demoRuns) ∧
    (0 : Int) ≤ 0 ∧ 0 ≤ sumLengths demoRuns ∧
    (∀ b ∈ ([[0, 0]] : List (List UInt8)), I64 (b.length : Int)) ∧
    I64 ([0, 0] : List UInt8).length ∧
    (∀ p, (Read (readerAfter (newRawFileReader demoHandler demoRuns 0) [[0, 0]])
      [0, 0]).outcome ≠ .panic p) ∧
    (Read (readerAfter (newRawFileReader demoHandler demoRuns 0) [[0, 0]]) [0, 0]).outcome
      = .ret 1 none ∧
    (Read (readerAfter (newRawFileReader demoHandler demoRuns 0) [[0, 0]])
      [0, 0]).reader.dataRunTracker = 1 ∧
    (Read (readerAfter (newRawFileReader demoHandler demoRuns 0) [[0, 0]])
      [0, 0]).reader.dataRunBytesLeftToReadTracker = 2 ∧
    (Read (readerAfter (newRawFileReader demoHandler demoRuns 0) [[0, 0]])
      [0, 0]).reader.totalByesRead = 3 :=
  ⟨by decide, by decide, by decide, by decide, by decide, by decide, by decide,
    (C19_reader_invariant demoHandler demoRuns 0 (by decide) (by decide) (by decide)
      (by decide) (by decide) [[0, 0]] (by decide) [0, 0] (by decide)).1,
    by decide, by decide, by decide, by decide⟩

/-- C20 (as amended): on an input of at least 512 bytes that `vbr.Parse` accepts,
`parseVolumeBootRecord` returns no error either, with the same bytes per sector,
sectors per cluster, bytes per cluster, MFT byte offset and clusters per index
record, and with the same MFT record size when the byte `b` at offset 0x40 is 128 or
at least 194; for `b = 193` the record sizes differ, `2^63` in a `uint` against an
`int64`. And every input of at least 512 bytes for which `parseVolumeBootRecord`
returns an error is rejected by `vbr.Parse`. -/
theorem C20_parsers_agree (uintOutOfRange : Int → Nat) (intOutOfRange : Int → Int)
    (input : List UInt8) (hlen : 512 ≤ input.length) :
    ((vbr.Parse uintOutOfRange input).2 = none →
      ∃ v, gofor.parseVolumeBootRecord intOutOfRange input = .ret v none ∧
        v.BytesPerSector = (vbr.Parse uintOutOfRange input).1.BytesPerSector ∧
        v.SectorsPerCluster = (vbr.Parse uintOutOfRange input).1.SectorsPerCluster ∧
        v.BytesPerCluster = (vbr.Parse uintOutOfRange input).1.BytesPerCluster ∧
        v.MftByteOffset = (vbr.Parse uintOutOfRange input).1.MftOffset ∧
        v.ClustersPerIndexRecord = (vbr.Parse uintOutOfRange input).1.ClustersPerIndexRecord ∧
        ((input.getD 0x40 0).toNat = 128 ∨ 194 ≤ (input.getD 0x40 0).toNat →
          v.MftRecordSize = (vbr.Parse uintOutOfRange input).1.MftRecordSize) ∧
        ((input.getD 0x40 0).toNat = 193 →
          v.MftRecordSize ≠ (vbr.Parse uintOutOfRange input).1.MftRecordSize)) ∧
    (∀ v e, gofor.parseVolumeBootRecord intOutOfRange input = .ret v (some e) →
      (vbr.Parse uintOutOfRange input).2 ≠ none) := by
  have hgo := gofor_of_length intOutOfRange input (by omega)
  have hb := uint8_toNat_lt (input.getD 0x40 0)
  constructor
  · intro hacc
    obtain ⟨_, hmagic, hrec, hmft, hv⟩ := Parse_accepts uintOutOfRange input hacc
    rw [if_neg (by simp [hmagic]), if_neg (by omega), if_neg hmft] at hgo
    have hspc := uint8_toNat_lt (input.getD 0x0D 0)
    have hbps := littleEndian_two_lt input 0x0B (by omega)
    have hprod : (input.getD 0x0D 0).toNat * littleEndian ((input.drop 0x0B).take 0x02)
        ≤ 255 * 65535 := Nat.mul_le_mul (by omega) (by omega)
    have hmod : ((input.getD 0x0D 0).toNat * littleEndian ((input.drop 0x0B).take 0x02))
        % 18446744073709551616
        = (input.getD 0x0D 0).toNat * littleEndian ((input.drop 0x0B).take 0x02) :=
      Nat.mod_eq_of_lt (by omega)
    have hwrap : wrap64 (((input.getD 0x0D 0).toNat : Int)
        * littleEndian ((input.drop 0x0B).take 0x02))
        = (((input.getD 0x0D 0).toNat * littleEndian ((input.drop 0x0B).take 0x02) : Nat) : Int) := by
      rw [← Nat.cast_mul]
      exact wrap64_of_I64 (by unfold I64; omega)
    refine ⟨_, hgo, ?_, ?_, ?_, ?_, ?_, ?_, ?_⟩
    · rw [hv]
    · rw [hv]
    · rw [hv]; simp only []; rw [hmod]; exact hwrap
    · rw [hv]; simp only []; rw [hmod, hwrap]
    · rw [hv]
    · intro hcase
      rw [hv]
      simp only []
      rcases hcase with h128 | h194
      · rw [h128]
        have he : wrap8 (toInt8 128 * -1) = -128 := by decide
        rw [he, (pow2_neg uintOutOfRange intOutOfRange (-128) (by omega)).1,
          (pow2_neg uintOutOfRange intOutOfRange (-128) (by omega)).2]
        rfl
      · rw [negInt8_of_ge _ (by omega) hb]
        unfold pow2ToInt64 pow2ToUint
        rw [if_neg (by omega), if_pos (by omega), if_neg (by omega), if_pos (by omega)]
        push_cast
        rfl
    · intro h193
      rw [hv]
      simp only []
      rw [h193]
      have he : wrap8 (toInt8 193 * -1) = 63 := by decide
      rw [he]
      have h2 := wrap64_I64 (intOutOfRange 63)
      rw [pow2ToUint_63, pow2ToInt64_63]
      unfold I64 at h2
      push_cast
      omega
  · intro v e hrej
    rw [hgo] at hrej
    by_cases h1 : (input.drop 0x03).take 0x04 ≠ magicNumber
    · rw [Parse_of_no_magic uintOutOfRange input hlen h1]
      simp
    · have hmagic : (input.drop 0x03).take 0x04 = magicNumber := not_not.mp h1
      rw [if_neg h1] at hrej
      by_cases h2 : (input.getD 0x40 0).toNat < 128
      · rw [Parse_of_small_record_byte uintOutOfRange input hlen hmagic h2]
        simp
      · rw [if_neg h2] at hrej
        split_ifs at hrej <;> simp at hrej


set_option maxRecDepth 100000 in
theorem C20_parsers_agree_witness :
    512 ≤ (demoSector 0xF6).length ∧
    (vbr.Parse (fun _ => 0) (demoSector 0xF6)).2 = none ∧
    (∃ v, gofor.parseVolumeBootRecord (fun _ => 0) (demoSector 0xF6) = .ret v none ∧
      v.BytesPerSector = (vbr.Parse (fun _ => 0) (demoSector 0xF6)).1.BytesPerSector ∧
      v.SectorsPerCluster = (vbr.Parse (fun _ => 0) (demoSector 0xF6)).1.SectorsPerCluster ∧
      v.BytesPerCluster = (vbr.Parse (fun _ => 0) (demoSector 0xF6)).1.BytesPerCluster ∧
      v.MftByteOffset = (vbr.Parse (fun _ => 0) (demoSector 0xF6)).1.MftOffset ∧
      v.ClustersPerIndexRecord
        = (vbr.Parse (fun _ => 0) (demoSector 0xF6)).1.ClustersPerIndexRecord ∧
      (((demoSector 0xF6).getD 0x40 0).toNat = 128 ∨ 194 ≤ ((demoSector 0xF6).getD 0x40 0).toNat →
        v.MftRecordSize = (vbr.Parse (fun _ => 0) (demoSector 0xF6)).1.MftRecordSize) ∧
      (((demoSector 0xF6).getD 0x40 0).toNat = 193 →
        v.MftRecordSize ≠ (vbr.Parse (fun _ => 0) (demoSector 0xF6)).1.MftRecordSize)) :=
  ⟨by decide, by decide,
    (C20_parsers_agree (fun _ => 0) (fun _ => 0) (demoSector 0xF6) (by decide)).1 (by decide)⟩

set_option maxRecDepth 100000 in
/-- C20 fails as stated: the boot sector `demoSector 0xC1` has 512 bytes and the byte
193 at offset 0x40; `vbr.Parse` accepts it with the record size `2^63`, and the
record size `parseVolumeBootRecord` returns is an `int64`, here `-2^63`, the value
the conversion of an out-of-range `float64` gives on amd64. -/
theorem C20_counterexample :
    (demoSector 0xC1).length = 512 ∧
    ((demoSector 0xC1).getD 0x40 0).toNat = 193 ∧
    (vbr.Parse (fun _ => 0) (demoSector 0xC1)).2 = none ∧
    (vbr.Parse (fun _ => 0) (demoSector 0xC1)).1.MftRecordSize = 9223372036854775808 ∧
    (∃ v, gofor.parseVolumeBootRecord (fun _ => -9223372036854775808) (demoSector 0xC1)
        = .ret v none ∧
      v.MftRecordSize = -9223372036854775808 ∧
      v.MftRecordSize ≠ (vbr.Parse (fun _ => 0) (demoSector 0xC1)).1.MftRecordSize) := by
  refine ⟨by decide, by decide, by decide, by decide, ⟨_, rfl, by decide, by decide⟩⟩

end GoFor
